import Mathlib

/-!
Verification of the derivative-code-generator repository.

This file gives a shallow embedding, in Lean 4, of the parts of the
repository relevant to the verified properties:

* `src/libgencode/codegenutil.py` — `FileCodeWriter` (indentation-aware
  output sink), `OperatorType`, `get_java_func_declaration`;
* `src/libgencode/exprcode.py` — `ExprCodeGenerator` /
  `JavaExprCodeGenerator` (lowering of sympy expressions to Java
  statements);
* `src/libgencode/derivativecode.py` — `DerivativeCodeGenerator`
  (expansion of differentiation variables, derivative function naming,
  generation of all second-order derivative functions);
* `src/libgencode/hessiancode.py` — `JavaHessianCodeGenerator`
  (direct-strategy Hessian body);
* `src/parsing/astdef.py` — typed AST nodes, shape inference with the
  collapse-to-scalar rule, the sympy-text projection;
* `src/parsing/expryacc.py` — the `p_atom` / `p_vector_index` semantic
  actions (environment lookups);
* `src/parsing/exprlex.py` — the lexer error rule `t_error`;
* `src/parsing/exprparser.py` — the sympification loop that stops at the
  expression named "main";
* `src/common/sympyutils.py` — `distinguish_dummy_vars`.

Python dynamic behaviour is made explicit: fallible operations return
`Except String` values, where the error string names the Python
exception that the source would raise (`KeyError`, `TypeError`, or the
`Exception` raised by the generator itself).  Machine-level integers in
the source are plain Python ints, so they are embedded as `Int` / `Nat`.
External sympy operations (differentiation, sympification,
simplification) are treated as parameters of the definitions that call
them, matching the spec's treatment of the algebra engine as an
external collaborator.
-/

namespace DerivGen

/-! ### `IndentType` and `FileCodeWriter` (libgencode/codegenutil.py) -/

/-- Enum class `IndentType`: indentation by space or by tab. -/
inductive IndentType where
  | bySpace
  | byTab
deriving DecidableEq

/-- `FileCodeWriter.__get_indent_string`: `'\t' * n` for tab indentation,
`' ' * (n * tab_size)` for space indentation.  Python string repetition
with a non-positive count yields the empty string, hence `Int.toNat`. -/
def getIndentString (tabType : IndentType) (tabSize : Int) (numTab : Int) : String :=
  match tabType with
  | .byTab => String.mk (List.replicate numTab.toNat '\t')
  | .bySpace => String.mk (List.replicate (numTab * tabSize).toNat ' ')

/-- `FileCodeWriter`: a wrapper of a file handle in writing mode that
takes care of code indentation.  The underlying file content is embedded
as the list of written strings (`lines`); `numTabFromMargin` and
`indentStr` model the private attributes `__num_tab_from_margin` and
`__indent_str`.  Python ints may go negative, so the tab counter is an
`Int` (`untab` guards against that). -/
structure FileCodeWriter where
  tabType : IndentType
  tabSize : Int
  numTabFromMargin : Int
  indentStr : String
  lines : List String
deriving DecidableEq

namespace FileCodeWriter

/-- The writer as constructed by `FileCodeWriter.__init__` (tab counter 0,
indent string computed from it, nothing written yet). -/
def mkInitial (tabType : IndentType) (tabSize : Int) : FileCodeWriter :=
  { tabType := tabType
    tabSize := tabSize
    numTabFromMargin := 0
    indentStr := getIndentString tabType tabSize 0
    lines := [] }

/-- `FileCodeWriter.tab`: increase the number of tabs from the left margin
by 1 and recompute the cached indent string. -/
def tab (w : FileCodeWriter) : FileCodeWriter :=
  { w with
    numTabFromMargin := w.numTabFromMargin + 1
    indentStr := getIndentString w.tabType w.tabSize (w.numTabFromMargin + 1) }

/-- `FileCodeWriter.untab`: decrease the number of tabs from the left
margin by 1 if possible (no-op when the counter is not positive). -/
def untab (w : FileCodeWriter) : FileCodeWriter :=
  if w.numTabFromMargin > 0 then
    { w with
      numTabFromMargin := w.numTabFromMargin - 1
      indentStr := getIndentString w.tabType w.tabSize (w.numTabFromMargin - 1) }
  else w

/-- `FileCodeWriter.write`: write a content string prefixed with the
current indentation string. -/
def write (w : FileCodeWriter) (contentStr : String) : FileCodeWriter :=
  { w with lines := w.lines ++ [w.indentStr ++ contentStr] }

/-- Writing a list of strings in order (helper used to restate folds of
`write` calls; not itself part of the source). -/
def writeAll (w : FileCodeWriter) (ls : List String) : FileCodeWriter :=
  ls.foldl (fun acc s => acc.write s) w

/-- A call sequence against the writer: the public operations of
`FileCodeWriter` exercised by the code generators. -/
inductive Op where
  | tabOp
  | untabOp
  | writeOp (s : String)

/-- Apply one writer operation. -/
def applyOp (w : FileCodeWriter) : Op → FileCodeWriter
  | .tabOp => w.tab
  | .untabOp => w.untab
  | .writeOp s => w.write s

/-- Apply a sequence of writer operations left to right. -/
def applyOps (w : FileCodeWriter) (ops : List Op) : FileCodeWriter :=
  ops.foldl applyOp w

/-- The internal coherence invariant of the writer: the tab counter is
non-negative and the cached indent string matches it. -/
def Coherent (w : FileCodeWriter) : Prop :=
  0 ≤ w.numTabFromMargin ∧
    w.indentStr = getIndentString w.tabType w.tabSize w.numTabFromMargin

theorem coherent_mkInitial (tt : IndentType) (ts : Int) :
    Coherent (mkInitial tt ts) := by
  constructor
  · simp [mkInitial]
  · rfl

theorem tab_tabType (w : FileCodeWriter) : w.tab.tabType = w.tabType := rfl

theorem tab_tabSize (w : FileCodeWriter) : w.tab.tabSize = w.tabSize := rfl

theorem tab_lines (w : FileCodeWriter) : w.tab.lines = w.lines := rfl

theorem untab_tabType (w : FileCodeWriter) : w.untab.tabType = w.tabType := by
  unfold untab; split <;> rfl

theorem untab_tabSize (w : FileCodeWriter) : w.untab.tabSize = w.tabSize := by
  unfold untab; split <;> rfl

theorem untab_lines (w : FileCodeWriter) : w.untab.lines = w.lines := by
  unfold untab; split <;> rfl

theorem write_tabType (w : FileCodeWriter) (s : String) :
    (w.write s).tabType = w.tabType := rfl

theorem write_tabSize (w : FileCodeWriter) (s : String) :
    (w.write s).tabSize = w.tabSize := rfl

theorem write_numTab (w : FileCodeWriter) (s : String) :
    (w.write s).numTabFromMargin = w.numTabFromMargin := rfl

theorem write_indentStr (w : FileCodeWriter) (s : String) :
    (w.write s).indentStr = w.indentStr := rfl

theorem write_lines (w : FileCodeWriter) (s : String) :
    (w.write s).lines = w.lines ++ [w.indentStr ++ s] := rfl

theorem coherent_tab {w : FileCodeWriter} (h : Coherent w) : Coherent w.tab := by
  obtain ⟨h0, _⟩ := h
  exact ⟨by simpa [tab] using le_trans h0 (by omega), rfl⟩

theorem coherent_untab {w : FileCodeWriter} (h : Coherent w) : Coherent w.untab := by
  obtain ⟨h0, hs⟩ := h
  unfold untab
  split
  · next hpos => exact ⟨show (0 : Int) ≤ w.numTabFromMargin - 1 by omega, rfl⟩
  · exact ⟨h0, hs⟩

theorem coherent_write {w : FileCodeWriter} (h : Coherent w) (s : String) :
    Coherent (w.write s) := h

theorem coherent_applyOp {w : FileCodeWriter} (h : Coherent w) (op : Op) :
    Coherent (w.applyOp op) := by
  cases op with
  | tabOp => exact coherent_tab h
  | untabOp => exact coherent_untab h
  | writeOp s => exact coherent_write h s

theorem applyOp_tabType (w : FileCodeWriter) (op : Op) :
    (w.applyOp op).tabType = w.tabType := by
  cases op with
  | tabOp => rfl
  | untabOp => exact untab_tabType w
  | writeOp s => rfl

theorem applyOp_tabSize (w : FileCodeWriter) (op : Op) :
    (w.applyOp op).tabSize = w.tabSize := by
  cases op with
  | tabOp => rfl
  | untabOp => exact untab_tabSize w
  | writeOp s => rfl

theorem coherent_applyOps {w : FileCodeWriter} (h : Coherent w) (ops : List Op) :
    Coherent (w.applyOps ops) := by
  induction ops generalizing w with
  | nil => exact h
  | cons op rest ih => exact ih (coherent_applyOp h op)

theorem applyOps_tabType (w : FileCodeWriter) (ops : List Op) :
    (w.applyOps ops).tabType = w.tabType := by
  induction ops generalizing w with
  | nil => rfl
  | cons op rest ih => rw [applyOps, List.foldl_cons, ← applyOps, ih, applyOp_tabType]

theorem applyOps_tabSize (w : FileCodeWriter) (ops : List Op) :
    (w.applyOps ops).tabSize = w.tabSize := by
  induction ops generalizing w with
  | nil => rfl
  | cons op rest ih => rw [applyOps, List.foldl_cons, ← applyOps, ih, applyOp_tabSize]

/-- Under coherence, a `tab` followed by an `untab` restores the writer
exactly (the tab counter goes up then back, the cached indent string is
recomputed to its old value, and nothing is written). -/
theorem tab_untab_eq {w : FileCodeWriter} (h : Coherent w) : w.tab.untab = w := by
  obtain ⟨h0, hs⟩ := h
  have hpos : w.tab.numTabFromMargin > 0 := by simp [tab]; omega
  unfold untab
  rw [if_pos hpos]
  cases w
  simp_all [tab]

end FileCodeWriter

/-- C10: The code writer's indentation level is never negative: after any
sequence of `tab` / `untab` / `write` calls starting from a fresh writer,
the count of tabs from the left margin stays at least 0; an `untab` call
at level 0 is a no-op; every written line is prefixed by exactly the
current level times the configured tab width in spaces (or that many tab
characters, for tab indentation); and a `tab` followed by an `untab`
restores the previous state, in particular the previous prefix. -/
theorem c10_writer_indentation (tt : IndentType) (ts : Int) (ops : List FileCodeWriter.Op) :
    0 ≤ ((FileCodeWriter.mkInitial tt ts).applyOps ops).numTabFromMargin ∧
    (((FileCodeWriter.mkInitial tt ts).applyOps ops).numTabFromMargin = 0 →
      ((FileCodeWriter.mkInitial tt ts).applyOps ops).untab =
        (FileCodeWriter.mkInitial tt ts).applyOps ops) ∧
    (∀ s : String,
      (((FileCodeWriter.mkInitial tt ts).applyOps ops).write s).lines =
        ((FileCodeWriter.mkInitial tt ts).applyOps ops).lines ++
          [getIndentString tt ts
              ((FileCodeWriter.mkInitial tt ts).applyOps ops).numTabFromMargin ++ s]) ∧
    ((FileCodeWriter.mkInitial tt ts).applyOps ops).tab.untab =
      (FileCodeWriter.mkInitial tt ts).applyOps ops := by
  have hco := FileCodeWriter.coherent_applyOps (FileCodeWriter.coherent_mkInitial tt ts) ops
  obtain ⟨h0, hs⟩ := hco
  refine ⟨h0, ?_, ?_, ?_⟩
  · intro hz
    unfold FileCodeWriter.untab
    rw [if_neg (by omega)]
  · intro s
    rw [FileCodeWriter.write_lines, hs, FileCodeWriter.applyOps_tabType,
      FileCodeWriter.applyOps_tabSize]
    simp [FileCodeWriter.mkInitial]
  · exact FileCodeWriter.tab_untab_eq ⟨h0, hs⟩

/-- Witness for C10 at a concrete call sequence: after `tab; untab` the
level is 0, so the no-op clause of the theorem fires with its hypothesis
discharged by evaluation. -/
theorem c10_writer_indentation_witness :
    ((FileCodeWriter.mkInitial .bySpace 2).applyOps
        [.tabOp, .untabOp]).numTabFromMargin = 0 ∧
    ((FileCodeWriter.mkInitial .bySpace 2).applyOps [.tabOp, .untabOp]).untab =
      (FileCodeWriter.mkInitial .bySpace 2).applyOps [.tabOp, .untabOp] :=
  ⟨by decide, (c10_writer_indentation .bySpace 2 [.tabOp, .untabOp]).2.1 (by decide)⟩

/-! ### Variables (common/vardef.py) -/

/-- `VariableType`: enum for number, vector, or matrix variables. -/
inductive VariableType where
  | number
  | vector
  | matrix
deriving DecidableEq

/-- `Variable`: name, type and dimension of a declared variable.  The
dimension tuple is embedded as a list of naturals (the numeric case; the
derivative generator iterates `xrange` over its entries). -/
structure Variable where
  name : String
  varType : VariableType
  dimension : List Nat
deriving DecidableEq

/-! ### Sympy expressions as seen by the code generator
(libgencode/exprcode.py, libgencode/codegenutil.py)

The generator inspects a sympy expression only through
`get_operator_type`, `args`, `evalf`, `str` and `name`; the embedding
records exactly the data those accesses return.  `num` stands for any
subexpression with `is_number` true, carrying `str(e.evalf())` and
`int(e.evalf())`.  `unknownOp` stands for any operator class outside the
generator's operator map (`re`, `DiracDelta`, `sign`, custom
functions, ...).  An element-access index is either a numeric sympy
atom or a symbolic one (e.g. a loop counter). -/

/-- One index of a `MatrixElement` access: a number or a symbol. -/
inductive IdxAtom where
  | num (n : Int)
  | symbolicIdx (s : String)
deriving DecidableEq

/-- A loop bound of a `Sum` / `Product` range: a number (carrying
`int(bound.evalf())`) or a non-number expression (carrying
`str(bound)`). -/
inductive LoopBound where
  | num (evalfInt : Int)
  | symbolic (printed : String)
deriving DecidableEq

/-- One `(counter, lower, upper)` range of a `Sum` / `Product` node. -/
structure LoopRange where
  varName : String
  lo : LoopBound
  hi : LoopBound
deriving DecidableEq

mutual
/-- A sympy expression tree as classified by
`OperatorType.get_operator_type`. -/
inductive SymExpr where
  | num (evalfStr : String) (evalfInt : Int)
  | sym (name : String)
  | matrixElement (varName : String) (indexTuple : List IdxAtom)
  | add (operands : SymExprList)
  | mul (operands : SymExprList)
  | pow (lhs rhs : SymExpr)
  | log (arg : SymExpr)
  | sin (arg : SymExpr)
  | cos (arg : SymExpr)
  | tan (arg : SymExpr)
  | cot (arg : SymExpr)
  | abs (arg : SymExpr)
  | sumLoop (body : SymExpr) (ranges : List LoopRange)
  | prodLoop (body : SymExpr) (ranges : List LoopRange)
  | unknownOp (opName : String) (operands : SymExprList)
/-- A list of operand expressions (`e.args`). -/
inductive SymExprList where
  | nil
  | cons (head : SymExpr) (tail : SymExprList)
end

/-- `OperatorType` (libgencode/codegenutil.py): enum of operator /
operand kinds, in source declaration order. -/
inductive OperatorType where
  | unknownType
  | numberOp
  | symbolOp
  | matrixOp
  | extractReal
  | absReal
  | addReal
  | diracDeltaReal
  | mulReal
  | powReal
  | sinReal
  | cosReal
  | tanReal
  | cotReal
  | logReal
  | signReal
  | sumLoopOp
  | productLoopOp
  | customFunc
deriving DecidableEq

/-- The integer value of each `OperatorType` enum member
(`range(19)` in declaration order). -/
def OperatorType.opCode : OperatorType → Nat
  | .unknownType => 0
  | .numberOp => 1
  | .symbolOp => 2
  | .matrixOp => 3
  | .extractReal => 4
  | .absReal => 5
  | .addReal => 6
  | .diracDeltaReal => 7
  | .mulReal => 8
  | .powReal => 9
  | .sinReal => 10
  | .cosReal => 11
  | .tanReal => 12
  | .cotReal => 13
  | .logReal => 14
  | .signReal => 15
  | .sumLoopOp => 16
  | .productLoopOp => 17
  | .customFunc => 18

/-- `OperatorType.get_operator_type`: operator kind of the root of a
sympy expression (the `is_number` test comes first, then the class
map). -/
def getOperatorType : SymExpr → OperatorType
  | .num _ _ => .numberOp
  | .sym _ => .symbolOp
  | .matrixElement _ _ => .matrixOp
  | .add _ => .addReal
  | .mul _ => .mulReal
  | .pow _ _ => .powReal
  | .log _ => .logReal
  | .sin _ => .sinReal
  | .cos _ => .cosReal
  | .tan _ => .tanReal
  | .cot _ => .cotReal
  | .abs _ => .absReal
  | .sumLoop _ _ => .sumLoopOp
  | .prodLoop _ _ => .productLoopOp
  | .unknownOp _ _ => .unknownType

/-- `OperatorType.is_singleton_op`: number, matrix-element and symbol
operands are singletons. -/
def isSingletonOp (opType : OperatorType) : Bool :=
  opType == .numberOp || opType == .matrixOp || opType == .symbolOp

/-! ### `ExprCodeGenerator` / `JavaExprCodeGenerator`
(libgencode/exprcode.py) -/

/-- The mutable generator state: the temporary-name stem
(`temp_var_prefix`, default `"__temp"`) and the private counter
`__num_temp_var_used`. -/
structure ExprGenState where
  tempVarStem : String
  numTempVarUsed : Nat
deriving DecidableEq

/-- A fresh generator state with the default temporary-name stem. -/
def mkExprGenState : ExprGenState := ⟨"__temp", 0⟩

/-- `_get_nxt_temp_var_name`: returns `<stem>_<counter>` and increments
the counter. -/
def getNxtTempVarName (st : ExprGenState) : String × ExprGenState :=
  (st.tempVarStem ++ "_" ++ toString st.numTempVarUsed,
    { st with numTempVarUsed := st.numTempVarUsed + 1 })

/-- `_var_dict`: Python dict comprehension over `var_list`; later
entries overwrite earlier ones, so lookup scans from the end. -/
def varDictFind (varList : List Variable) (name : String) : Option Variable :=
  varList.reverse.find? (fun v => v.name == name)

/-- The `real_ind` fold of `__gen_arr_access_code` for vector variables:
`real_ind = 0; for index in index_tuple: if index > 0: real_ind = index`.
When an index is symbolic, Python's truth test of the sympy relational
`index > 0` raises `TypeError`. -/
def vecRealInd : Int → List IdxAtom → Except String Int
  | acc, [] => .ok acc
  | acc, .num n :: rest => vecRealInd (if n > 0 then n else acc) rest
  | _, .symbolicIdx _ :: _ =>
    .error "TypeError: cannot determine truth value of Relational"

/-- The index-formatting fold of `__gen_arr_access_code` for non-vector
variables: `code += "[%d]" % index` per index.  `%d` on a sympy Symbol
raises `TypeError`. -/
def matAccessStr : String → List IdxAtom → Except String String
  | code, [] => .ok code
  | code, .num n :: rest => matAccessStr (code ++ "[" ++ toString n ++ "]") rest
  | _, .symbolicIdx _ :: _ =>
    .error "TypeError: %d format: a number is required, not Symbol"

/-- `JavaExprCodeGenerator.__gen_arr_access_code`: Java code for an
array / matrix element access.  A declared vector indexes on whichever
of its two logical indices is positive (vectors are Nx1 but stored
1-D). -/
def genArrAccessCode (varObj : Variable) (indexTuple : List IdxAtom) :
    Except String String :=
  if varObj.varType == .vector then
    match vecRealInd 0 indexTuple with
    | .error e => .error e
    | .ok realInd => .ok (varObj.name ++ "[" ++ toString realInd ++ "]")
  else
    matAccessStr varObj.name indexTuple

/-- The printed form of a loop bound: `str(int(bound.evalf()))` for a
literal number, `str(bound)` otherwise. -/
def loopBoundStr : LoopBound → String
  | .num i => toString i
  | .symbolic s => s

/-- The text of one generated `for` header:
`"for (int %s = %s; %s <= %s; %s += %s) {\n"` with step `"1"`. -/
def forHeaderLine (r : LoopRange) : String :=
  "for (int " ++ r.varName ++ " = " ++ loopBoundStr r.lo ++ "; " ++
    r.varName ++ " <= " ++ loopBoundStr r.hi ++ "; " ++
    r.varName ++ " += 1) \x7b\n"

/-- The header-emitting loop of `__gen_code_loop`: per range, write the
`for` header and indent. -/
def writeLoopHeaders (w : FileCodeWriter) : List LoopRange → FileCodeWriter
  | [] => w
  | r :: rest => writeLoopHeaders ((w.write (forHeaderLine r)).tab) rest

/-- The closing loop of `__gen_code_loop`: `len(ranges)` times, unindent
and write `"}\n"`. -/
def closeLoops (w : FileCodeWriter) : Nat → FileCodeWriter
  | 0 => w
  | n + 1 => closeLoops ((w.untab).write "\x7d\n") n

mutual
/-- `JavaExprCodeGenerator._gen_code_expr` (with `__gen_code_loop`
inlined for the `Sum` / `Product` cases): lowers a sympy expression to
Java statements, returning the name holding the result.  Errors model
the Python exceptions the source raises (`KeyError` on `_var_dict`
lookup, `TypeError` inside `__gen_arr_access_code`, and the
`Exception("Cannot generate code for operator %s")` raise). -/
def genCodeExpr (varList : List Variable) (st : ExprGenState)
    (w : FileCodeWriter) :
    SymExpr → Except String (ExprGenState × FileCodeWriter × String)
  | .num evalfStr _ => .ok (st, w, evalfStr)
  | .sym name => .ok (st, w, name)
  | .matrixElement varName indexTuple =>
    match varDictFind varList varName with
    | none => .error ("KeyError: " ++ varName)
    | some varObj =>
      match genArrAccessCode varObj indexTuple with
      | .error e => .error e
      | .ok s => .ok (st, w, s)
  | .sumLoop body ranges =>
    let (tempVarName, st1) := getNxtTempVarName st
    let w1 := writeLoopHeaders
      (w.write ("double " ++ tempVarName ++ " = 0.000000;\n")) ranges
    match genCodeExpr varList st1 w1 body with
    | .error e => .error e
    | .ok (st2, w2, innerName) =>
      .ok (st2,
        closeLoops (w2.write (tempVarName ++ " += " ++ innerName ++ ";\n"))
          ranges.length,
        tempVarName)
  | .prodLoop body ranges =>
    let (tempVarName, st1) := getNxtTempVarName st
    let w1 := writeLoopHeaders
      (w.write ("double " ++ tempVarName ++ " = 1.000000;\n")) ranges
    match genCodeExpr varList st1 w1 body with
    | .error e => .error e
    | .ok (st2, w2, innerName) =>
      .ok (st2,
        closeLoops (w2.write (tempVarName ++ " *= " ++ innerName ++ ";\n"))
          ranges.length,
        tempVarName)
  | .add operands =>
    let (finalVar, st1) := getNxtTempVarName st
    match genCodeExprList varList st1 w operands with
    | .error e => .error e
    | .ok (st2, w2, operandNames) =>
      .ok (st2,
        w2.write ("double " ++ finalVar ++ " = " ++
          String.intercalate " + " operandNames ++ ";\n"),
        finalVar)
  | .mul operands =>
    let (finalVar, st1) := getNxtTempVarName st
    match genCodeExprList varList st1 w operands with
    | .error e => .error e
    | .ok (st2, w2, operandNames) =>
      .ok (st2,
        w2.write ("double " ++ finalVar ++ " = " ++
          String.intercalate " * " operandNames ++ ";\n"),
        finalVar)
  | .pow lhs rhs =>
    let (finalVar, st1) := getNxtTempVarName st
    match genCodeExpr varList st1 w lhs with
    | .error e => .error e
    | .ok (st2, w2, n1) =>
      match genCodeExpr varList st2 w2 rhs with
      | .error e => .error e
      | .ok (st3, w3, n2) =>
        .ok (st3,
          w3.write ("double " ++ finalVar ++ " = Math.pow(" ++ n1 ++ ", " ++
            n2 ++ ");\n"),
          finalVar)
  | .log arg =>
    let (finalVar, st1) := getNxtTempVarName st
    match genCodeExpr varList st1 w arg with
    | .error e => .error e
    | .ok (st2, w2, n1) =>
      .ok (st2,
        w2.write ("double " ++ finalVar ++ " = Math.log(" ++ n1 ++ ");\n"),
        finalVar)
  | .sin arg =>
    let (finalVar, st1) := getNxtTempVarName st
    match genCodeExpr varList st1 w arg with
    | .error e => .error e
    | .ok (st2, w2, n1) =>
      .ok (st2,
        w2.write ("double " ++ finalVar ++ " = Math.sin(" ++ n1 ++ ");\n"),
        finalVar)
  | .cos arg =>
    let (finalVar, st1) := getNxtTempVarName st
    match genCodeExpr varList st1 w arg with
    | .error e => .error e
    | .ok (st2, w2, n1) =>
      .ok (st2,
        w2.write ("double " ++ finalVar ++ " = Math.cos(" ++ n1 ++ ");\n"),
        finalVar)
  | .tan arg =>
    let (finalVar, st1) := getNxtTempVarName st
    match genCodeExpr varList st1 w arg with
    | .error e => .error e
    | .ok (st2, w2, n1) =>
      .ok (st2,
        w2.write ("double " ++ finalVar ++ " = Math.tan(" ++ n1 ++ ");\n"),
        finalVar)
  | .cot arg =>
    let (finalVar, st1) := getNxtTempVarName st
    match genCodeExpr varList st1 w arg with
    | .error e => .error e
    | .ok (st2, w2, n1) =>
      .ok (st2,
        w2.write ("double " ++ finalVar ++ " = Math.sin(" ++ n1 ++
          ") / Math.cos(" ++ n1 ++ ");\n"),
        finalVar)
  | .abs arg =>
    let (_, st1) := getNxtTempVarName st
    match genCodeExpr varList st1 w arg with
    | .error e => .error e
    | .ok _ =>
      .error ("Cannot generate code for operator " ++
        toString OperatorType.absReal.opCode)
  | .unknownOp _ operands =>
    let (_, st1) := getNxtTempVarName st
    match genCodeExprList varList st1 w operands with
    | .error e => .error e
    | .ok _ =>
      .error ("Cannot generate code for operator " ++
        toString OperatorType.unknownType.opCode)
/-- The per-operand list comprehension
`[self._gen_code_expr(operand, fh) for operand in operands]`, threading
the temp counter and the writer. -/
def genCodeExprList (varList : List Variable) (st : ExprGenState)
    (w : FileCodeWriter) :
    SymExprList → Except String (ExprGenState × FileCodeWriter × List String)
  | .nil => .ok (st, w, [])
  | .cons e rest =>
    match genCodeExpr varList st w e with
    | .error err => .error err
    | .ok (st1, w1, name) =>
      match genCodeExprList varList st1 w1 rest with
      | .error err => .error err
      | .ok (st2, w2, names) => .ok (st2, w2, name :: names)
end

/-- `get_java_func_declaration` (libgencode/codegenutil.py). -/
def getJavaFuncDeclaration (funcName retType : String)
    (varList : List Variable) (modifierList : List String) : String :=
  let paramStr := String.intercalate ", " (varList.map (fun v =>
    (match v.varType with
     | .number => "double"
     | .vector => "double[]"
     | .matrix => "double[][]") ++ " " ++ v.name))
  let modifierStr0 := String.intercalate " " modifierList
  let modifierStr := if modifierStr0 = "" then modifierStr0 else modifierStr0 ++ " "
  let rettypeStr := if retType = "" then retType else retType ++ " "
  modifierStr ++ rettypeStr ++ funcName ++ "(" ++ paramStr ++ ")"

/-- `ExprCodeGenerator.gen_code` together with the Java
`_gen_func_declaration` and `_gen_return_code`: declaration line, the
lowered body at one extra indent level, then the return statement and
the closing brace. -/
def genCode (varList : List Variable) (expr : SymExpr) (funcName : String)
    (modifierList : List String) (st : ExprGenState) (w : FileCodeWriter) :
    Except String FileCodeWriter :=
  let w1 := w.write
    (getJavaFuncDeclaration funcName "double" varList modifierList ++ " \x7b\n")
  match genCodeExpr varList st w1.tab expr with
  | .error e => .error e
  | .ok (_, w2, finalVarName) =>
    let w3 := w2.untab
    .ok ((((w3.tab).write ("return " ++ finalVarName ++ ";\n")).untab).write
      "\x7d\n\n")

/-! ### Emitted-line descriptions for the loop lowering -/

/-- The lines written by the header-emitting loop of `__gen_code_loop`,
described directly: one `for` header per range, each one indent level
deeper than the last. -/
def headerLinesSpec (tt : IndentType) (ts : Int) (lvl : Int) :
    List LoopRange → List String
  | [] => []
  | r :: rest =>
    (getIndentString tt ts lvl ++ forHeaderLine r) ::
      headerLinesSpec tt ts (lvl + 1) rest

/-- The lines written by the closing loop of `__gen_code_loop`: `n`
closing braces at successively shallower indent levels. -/
def closeLinesSpec (tt : IndentType) (ts : Int) (lvl : Int) :
    Nat → List String
  | 0 => []
  | n + 1 =>
    (getIndentString tt ts (lvl - 1) ++ "\x7d\n") ::
      closeLinesSpec tt ts (lvl - 1) n

theorem FileCodeWriter.tab_numTab (w : FileCodeWriter) :
    w.tab.numTabFromMargin = w.numTabFromMargin + 1 := rfl

theorem FileCodeWriter.untab_eq_of_pos {w : FileCodeWriter}
    (h : w.numTabFromMargin > 0) :
    w.untab =
      { w with
        numTabFromMargin := w.numTabFromMargin - 1
        indentStr := getIndentString w.tabType w.tabSize (w.numTabFromMargin - 1) } := by
  unfold FileCodeWriter.untab
  rw [if_pos h]

theorem writeLoopHeaders_spec (rs : List LoopRange) :
    ∀ w : FileCodeWriter, w.Coherent →
      (writeLoopHeaders w rs).tabType = w.tabType ∧
      (writeLoopHeaders w rs).tabSize = w.tabSize ∧
      (writeLoopHeaders w rs).numTabFromMargin =
        w.numTabFromMargin + rs.length ∧
      (writeLoopHeaders w rs).Coherent ∧
      (writeLoopHeaders w rs).lines =
        w.lines ++ headerLinesSpec w.tabType w.tabSize w.numTabFromMargin rs := by
  induction rs with
  | nil =>
    intro w hco
    exact ⟨rfl, rfl, by simp [writeLoopHeaders], hco,
      by simp [writeLoopHeaders, headerLinesSpec]⟩
  | cons r rest ih =>
    intro w hco
    have hs := hco.2
    have hco1 : ((w.write (forHeaderLine r)).tab).Coherent :=
      FileCodeWriter.coherent_tab (FileCodeWriter.coherent_write hco (forHeaderLine r))
    obtain ⟨i1, i2, i3, i4, i5⟩ := ih ((w.write (forHeaderLine r)).tab) hco1
    refine ⟨?_, ?_, ?_, ?_, ?_⟩
    · rw [writeLoopHeaders, i1, FileCodeWriter.tab_tabType, FileCodeWriter.write_tabType]
    · rw [writeLoopHeaders, i2, FileCodeWriter.tab_tabSize, FileCodeWriter.write_tabSize]
    · rw [writeLoopHeaders, i3, FileCodeWriter.tab_numTab, FileCodeWriter.write_numTab]
      simp only [List.length_cons]
      push_cast
      omega
    · rw [writeLoopHeaders]
      exact i4
    · rw [writeLoopHeaders, i5, FileCodeWriter.tab_lines, FileCodeWriter.write_lines,
        FileCodeWriter.tab_tabType, FileCodeWriter.write_tabType,
        FileCodeWriter.tab_tabSize, FileCodeWriter.write_tabSize,
        FileCodeWriter.tab_numTab, FileCodeWriter.write_numTab]
      simp [headerLinesSpec, hs]

theorem closeLoops_spec (n : Nat) :
    ∀ w : FileCodeWriter, w.Coherent → (n : Int) ≤ w.numTabFromMargin →
      (closeLoops w n).tabType = w.tabType ∧
      (closeLoops w n).tabSize = w.tabSize ∧
      (closeLoops w n).numTabFromMargin = w.numTabFromMargin - n ∧
      (closeLoops w n).Coherent ∧
      (closeLoops w n).lines =
        w.lines ++ closeLinesSpec w.tabType w.tabSize w.numTabFromMargin n := by
  induction n with
  | zero =>
    intro w hco _
    exact ⟨rfl, rfl, by simp [closeLoops], hco, by simp [closeLoops, closeLinesSpec]⟩
  | succ m ih =>
    intro w hco hle
    have hpos : w.numTabFromMargin > 0 := by
      have := hco.1
      push_cast at hle
      omega
    have e1 : (w.untab).numTabFromMargin = w.numTabFromMargin - 1 := by
      rw [FileCodeWriter.untab_eq_of_pos hpos]
    have e2 : (w.untab).indentStr =
        getIndentString w.tabType w.tabSize (w.numTabFromMargin - 1) := by
      rw [FileCodeWriter.untab_eq_of_pos hpos]
    have hco1 : ((w.untab).write "\x7d\n").Coherent :=
      FileCodeWriter.coherent_write (FileCodeWriter.coherent_untab hco) _
    have hle1 : (m : Int) ≤ ((w.untab).write "\x7d\n").numTabFromMargin := by
      rw [FileCodeWriter.write_numTab, e1]
      push_cast at hle ⊢
      omega
    obtain ⟨i1, i2, i3, i4, i5⟩ := ih ((w.untab).write "\x7d\n") hco1 hle1
    refine ⟨?_, ?_, ?_, ?_, ?_⟩
    · rw [closeLoops, i1, FileCodeWriter.write_tabType, FileCodeWriter.untab_tabType]
    · rw [closeLoops, i2, FileCodeWriter.write_tabSize, FileCodeWriter.untab_tabSize]
    · rw [closeLoops, i3, FileCodeWriter.write_numTab, e1]
      push_cast
      omega
    · rw [closeLoops]
      exact i4
    · rw [closeLoops, i5, FileCodeWriter.write_lines, FileCodeWriter.untab_lines,
        FileCodeWriter.write_tabType, FileCodeWriter.untab_tabType,
        FileCodeWriter.write_tabSize, FileCodeWriter.untab_tabSize,
        FileCodeWriter.write_numTab, e1, e2]
      simp [closeLinesSpec]

/-- The abstract writer-discipline property of one generator step: the
writer's configuration and indent level are preserved, coherence is
maintained, and output lines are only appended. -/
def WriterExtends (w w' : FileCodeWriter) : Prop :=
  w'.tabType = w.tabType ∧ w'.tabSize = w.tabSize ∧
    w'.numTabFromMargin = w.numTabFromMargin ∧ w'.Coherent ∧
    ∃ ls, w'.lines = w.lines ++ ls

theorem writerExtends_refl {w : FileCodeWriter} (hco : w.Coherent) :
    WriterExtends w w :=
  ⟨rfl, rfl, rfl, hco, [], by simp⟩

theorem writerExtends_write {w w' : FileCodeWriter} (h : WriterExtends w w')
    (s : String) : WriterExtends w (w'.write s) := by
  obtain ⟨h1, h2, h3, h4, ls, h5⟩ := h
  exact ⟨h1, h2, h3, FileCodeWriter.coherent_write h4 s,
    ls ++ [w'.indentStr ++ s], by simp [FileCodeWriter.write_lines, h5]⟩

theorem writerExtends_trans {w1 w2 w3 : FileCodeWriter}
    (h : WriterExtends w1 w2) (h' : WriterExtends w2 w3) :
    WriterExtends w1 w3 := by
  obtain ⟨h1, h2, h3, h4, ls, h5⟩ := h
  obtain ⟨g1, g2, g3, g4, ms, g5⟩ := h'
  exact ⟨g1.trans h1, g2.trans h2, g3.trans h3, g4, ls ++ ms,
    by rw [g5, h5, List.append_assoc]⟩

/-- Writer discipline of one whole `__gen_code_loop` emission, given the
discipline of the body lowering. -/
theorem loopEmission_extends (w : FileCodeWriter) (hco : w.Coherent)
    (initLine : String) (rs : List LoopRange) (w2 : FileCodeWriter)
    (updLine : String)
    (hbody : WriterExtends (writeLoopHeaders (w.write initLine) rs) w2) :
    WriterExtends w (closeLoops (w2.write updLine) rs.length) := by
  obtain ⟨a1, a2, a3, a4, a5⟩ := writeLoopHeaders_spec rs (w.write initLine)
    (FileCodeWriter.coherent_write hco initLine)
  obtain ⟨b1, b2, b3, b4, bls, b5⟩ := hbody
  have hca : ((w2.write updLine)).Coherent :=
    FileCodeWriter.coherent_write b4 updLine
  have hle : ((rs.length : Nat) : Int) ≤ (w2.write updLine).numTabFromMargin := by
    rw [FileCodeWriter.write_numTab, b3, a3, FileCodeWriter.write_numTab]
    have := hco.1
    omega
  obtain ⟨c1, c2, c3, c4, c5⟩ := closeLoops_spec rs.length (w2.write updLine) hca hle
  refine ⟨?_, ?_, ?_, c4, ?_⟩
  · rw [c1, FileCodeWriter.write_tabType, b1, a1, FileCodeWriter.write_tabType]
  · rw [c2, FileCodeWriter.write_tabSize, b2, a2, FileCodeWriter.write_tabSize]
  · rw [c3, FileCodeWriter.write_numTab, b3, a3, FileCodeWriter.write_numTab]
    omega
  · refine ⟨[w.indentStr ++ initLine] ++
      headerLinesSpec (w.write initLine).tabType (w.write initLine).tabSize
        (w.write initLine).numTabFromMargin rs ++ bls ++
      [w2.indentStr ++ updLine] ++
      closeLinesSpec (w2.write updLine).tabType (w2.write updLine).tabSize
        (w2.write updLine).numTabFromMargin rs.length, ?_⟩
    rw [c5, FileCodeWriter.write_lines, b5, a5, FileCodeWriter.write_lines]
    simp [List.append_assoc]

mutual
/-- Writer discipline of `_gen_code_expr`: a successful lowering keeps
the writer configuration and indent level, preserves coherence, and only
appends lines. -/
theorem genCodeExpr_extends (varList : List Variable) (e : SymExpr) :
    ∀ (st : ExprGenState) (w : FileCodeWriter)
      (out : ExprGenState × FileCodeWriter × String), w.Coherent →
      genCodeExpr varList st w e = .ok out → WriterExtends w out.2.1 := by
  cases e with
  | num s i =>
    intro st w out hco h
    simp only [genCodeExpr] at h
    cases h
    exact writerExtends_refl hco
  | sym n =>
    intro st w out hco h
    simp only [genCodeExpr] at h
    cases h
    exact writerExtends_refl hco
  | matrixElement vn idx =>
    intro st w out hco h
    simp only [genCodeExpr] at h
    split at h
    · cases h
    · split at h
      · cases h
      · cases h
        exact writerExtends_refl hco
  | sumLoop body rs =>
    intro st w out hco h
    simp only [genCodeExpr, getNxtTempVarName] at h
    split at h
    · cases h
    · next st2 w2 inner heq =>
      cases h
      exact loopEmission_extends w hco _ rs w2 _
        (genCodeExpr_extends varList body _ _ _
          ((writeLoopHeaders_spec rs _ (FileCodeWriter.coherent_write hco _)).2.2.2.1)
          heq)
  | prodLoop body rs =>
    intro st w out hco h
    simp only [genCodeExpr, getNxtTempVarName] at h
    split at h
    · cases h
    · next st2 w2 inner heq =>
      cases h
      exact loopEmission_extends w hco _ rs w2 _
        (genCodeExpr_extends varList body _ _ _
          ((writeLoopHeaders_spec rs _ (FileCodeWriter.coherent_write hco _)).2.2.2.1)
          heq)
  | add ops =>
    intro st w out hco h
    simp only [genCodeExpr, getNxtTempVarName] at h
    split at h
    · cases h
    · next st2 w2 names heq =>
      cases h
      exact writerExtends_write
        (genCodeExprList_extends varList ops _ _ _ hco heq) _
  | mul ops =>
    intro st w out hco h
    simp only [genCodeExpr, getNxtTempVarName] at h
    split at h
    · cases h
    · next st2 w2 names heq =>
      cases h
      exact writerExtends_write
        (genCodeExprList_extends varList ops _ _ _ hco heq) _
  | pow lhs rhs =>
    intro st w out hco h
    simp only [genCodeExpr, getNxtTempVarName] at h
    split at h
    · cases h
    · next st2 w2 n1 heq1 =>
      split at h
      · cases h
      · next st3 w3 n2 heq2 =>
        cases h
        have h1 := genCodeExpr_extends varList lhs _ _ _ hco heq1
        have h2 := genCodeExpr_extends varList rhs _ _ _ h1.2.2.2.1 heq2
        exact writerExtends_write (writerExtends_trans h1 h2) _
  | log arg =>
    intro st w out hco h
    simp only [genCodeExpr, getNxtTempVarName] at h
    split at h
    · cases h
    · next st2 w2 n1 heq =>
      cases h
      exact writerExtends_write (genCodeExpr_extends varList arg _ _ _ hco heq) _
  | sin arg =>
    intro st w out hco h
    simp only [genCodeExpr, getNxtTempVarName] at h
    split at h
    · cases h
    · next st2 w2 n1 heq =>
      cases h
      exact writerExtends_write (genCodeExpr_extends varList arg _ _ _ hco heq) _
  | cos arg =>
    intro st w out hco h
    simp only [genCodeExpr, getNxtTempVarName] at h
    split at h
    · cases h
    · next st2 w2 n1 heq =>
      cases h
      exact writerExtends_write (genCodeExpr_extends varList arg _ _ _ hco heq) _
  | tan arg =>
    intro st w out hco h
    simp only [genCodeExpr, getNxtTempVarName] at h
    split at h
    · cases h
    · next st2 w2 n1 heq =>
      cases h
      exact writerExtends_write (genCodeExpr_extends varList arg _ _ _ hco heq) _
  | cot arg =>
    intro st w out hco h
    simp only [genCodeExpr, getNxtTempVarName] at h
    split at h
    · cases h
    · next st2 w2 n1 heq =>
      cases h
      exact writerExtends_write (genCodeExpr_extends varList arg _ _ _ hco heq) _
  | abs arg =>
    intro st w out hco h
    simp only [genCodeExpr, getNxtTempVarName] at h
    split at h <;> cases h
  | unknownOp nm ops =>
    intro st w out hco h
    simp only [genCodeExpr, getNxtTempVarName] at h
    split at h <;> cases h
/-- Writer discipline of the operand-list lowering. -/
theorem genCodeExprList_extends (varList : List Variable) (es : SymExprList) :
    ∀ (st : ExprGenState) (w : FileCodeWriter)
      (out : ExprGenState × FileCodeWriter × List String), w.Coherent →
      genCodeExprList varList st w es = .ok out → WriterExtends w out.2.1 := by
  cases es with
  | nil =>
    intro st w out hco h
    simp only [genCodeExprList] at h
    cases h
    exact writerExtends_refl hco
  | cons e rest =>
    intro st w out hco h
    simp only [genCodeExprList] at h
    split at h
    · cases h
    · next st1 w1 name heq1 =>
      split at h
      · cases h
      · next st2 w2 names heq2 =>
        cases h
        have h1 := genCodeExpr_extends varList e _ _ _ hco heq1
        exact writerExtends_trans h1
          (genCodeExprList_extends varList rest st1 w1 (st2, w2, names)
            h1.2.2.2.1 heq2)
end

/-- The textual reference produced for a singleton sympy expression
(the singleton branch of `_gen_code_expr`): `str(e.evalf())` for a
number, `str(e)` for a symbol, and the array-access code for a
matrix element (which can fail with `KeyError` / `TypeError`). -/
def singletonRefStr (varList : List Variable) : SymExpr → Except String String
  | .num evalfStr _ => .ok evalfStr
  | .sym name => .ok name
  | .matrixElement varName indexTuple =>
    match varDictFind varList varName with
    | none => .error ("KeyError: " ++ varName)
    | some varObj => genArrAccessCode varObj indexTuple
  | _ => .error "not a singleton"

/-- C7: when the expression code generator reaches a non-singleton node
whose operator kind has no lowering rule (an operator mapped by
`get_operator_type` but absent from the generator's dispatch, such as
`Abs`, or an operator kind outside the map entirely), it raises the
fatal `Exception("Cannot generate code for operator ...")`: the result
is always an error, never a silently emitted statement for that node. -/
theorem c7_no_lowering_rule_fatal (varList : List Variable)
    (st : ExprGenState) (w : FileCodeWriter) :
    (∀ arg : SymExpr,
      isSingletonOp (getOperatorType (SymExpr.abs arg)) = false ∧
      ∃ msg, genCodeExpr varList st w (.abs arg) = .error msg) ∧
    (∀ (opName : String) (operands : SymExprList),
      isSingletonOp (getOperatorType (SymExpr.unknownOp opName operands)) = false ∧
      ∃ msg, genCodeExpr varList st w (.unknownOp opName operands) = .error msg) := by
  constructor
  · intro arg
    refine ⟨rfl, ?_⟩
    cases hres : genCodeExpr varList
        { tempVarStem := st.tempVarStem, numTempVarUsed := st.numTempVarUsed + 1 }
        w arg with
    | error e =>
      refine ⟨e, ?_⟩
      simp only [genCodeExpr, getNxtTempVarName, hres]
    | ok v =>
      refine ⟨"Cannot generate code for operator " ++
        toString OperatorType.absReal.opCode, ?_⟩
      simp only [genCodeExpr, getNxtTempVarName, hres]
  · intro opName operands
    refine ⟨rfl, ?_⟩
    cases hres : genCodeExprList varList
        { tempVarStem := st.tempVarStem, numTempVarUsed := st.numTempVarUsed + 1 }
        w operands with
    | error e =>
      refine ⟨e, ?_⟩
      simp only [genCodeExpr, getNxtTempVarName, hres]
    | ok v =>
      refine ⟨"Cannot generate code for operator " ++
        toString OperatorType.unknownType.opCode, ?_⟩
      simp only [genCodeExpr, getNxtTempVarName, hres]

/-- C3: whenever the generator succeeds on a singleton expression
(number literal, bare symbol, matrix / vector element access), it emits
no statement, leaves the generator state untouched, and returns the
textual reference (first conjunct); and for a declared number variable
`x` the generated eval function for the expression `x` is exactly the
declaration line, the statement returning the parameter `x` unmodified,
and the closing brace (last conjunct).  However, the code DEVIATES from
the claim for element accesses with a symbolic index (as produced by
loop bodies such as `x[i]`): there `__gen_arr_access_code` raises
`TypeError` instead of returning a textual reference (middle
conjuncts). -/
theorem c3_singleton_inlining :
    (∀ (varList : List Variable) (st : ExprGenState) (w : FileCodeWriter)
        (e : SymExpr) (st' : ExprGenState) (w' : FileCodeWriter) (r : String),
      isSingletonOp (getOperatorType e) = true →
      genCodeExpr varList st w e = .ok (st', w', r) →
      st' = st ∧ w' = w ∧ singletonRefStr varList e = .ok r) ∧
    (genCodeExpr [⟨"x", .vector, [3]⟩] mkExprGenState
        (FileCodeWriter.mkInitial .bySpace 2)
        (.matrixElement "x" [.symbolicIdx "i", .num 0]) =
      .error "TypeError: cannot determine truth value of Relational") ∧
    isSingletonOp
      (getOperatorType (.matrixElement "x" [.symbolicIdx "i", .num 0])) = true ∧
    (genCode [⟨"x", .number, []⟩] (.sym "x") "eval" [] mkExprGenState
        (FileCodeWriter.mkInitial .bySpace 2) =
      .ok ⟨.bySpace, 2, 0, "",
        ["double eval(double x) \x7b\n", "  return x;\n", "\x7d\n\n"]⟩) := by
  refine ⟨?_, rfl, rfl, rfl⟩
  intro varList st w e st' w' r hs h
  cases e with
  | num s i =>
    simp only [genCodeExpr] at h
    cases h
    exact ⟨rfl, rfl, rfl⟩
  | sym n =>
    simp only [genCodeExpr] at h
    cases h
    exact ⟨rfl, rfl, rfl⟩
  | matrixElement vn idx =>
    simp only [genCodeExpr] at h
    split at h
    · cases h
    · next varObj hfind =>
      split at h
      · cases h
      · next s harr =>
        cases h
        exact ⟨rfl, rfl, by simp [singletonRefStr, hfind, harr]⟩
  | add ops => simp [getOperatorType, isSingletonOp] at hs
  | mul ops => simp [getOperatorType, isSingletonOp] at hs
  | pow a b => simp [getOperatorType, isSingletonOp] at hs
  | log a => simp [getOperatorType, isSingletonOp] at hs
  | sin a => simp [getOperatorType, isSingletonOp] at hs
  | cos a => simp [getOperatorType, isSingletonOp] at hs
  | tan a => simp [getOperatorType, isSingletonOp] at hs
  | cot a => simp [getOperatorType, isSingletonOp] at hs
  | abs a => simp [getOperatorType, isSingletonOp] at hs
  | sumLoop b rs => simp [getOperatorType, isSingletonOp] at hs
  | prodLoop b rs => simp [getOperatorType, isSingletonOp] at hs
  | unknownOp nm ops => simp [getOperatorType, isSingletonOp] at hs

/-- Witness for the universally quantified conjunct of
`c3_singleton_inlining`, instantiated at the bare symbol `q`. -/
theorem c3_singleton_inlining_witness :
    (⟨"__temp", 0⟩ : ExprGenState) = mkExprGenState ∧
    FileCodeWriter.mkInitial .bySpace 2 = FileCodeWriter.mkInitial .bySpace 2 ∧
    singletonRefStr [] (.sym "q") = .ok "q" :=
  c3_singleton_inlining.1 [] mkExprGenState (FileCodeWriter.mkInitial .bySpace 2)
    (.sym "q") ⟨"__temp", 0⟩ (FileCodeWriter.mkInitial .bySpace 2) "q"
    rfl rfl

/-- The emitted-lines shape of one whole `__gen_code_loop` emission. -/
theorem loopEmission_lines (varList : List Variable) (w : FileCodeWriter)
    (hco : w.Coherent) (initLine updLine : String) (rs : List LoopRange)
    (st1 : ExprGenState) (body : SymExpr) (st2 : ExprGenState)
    (w2 : FileCodeWriter) (inner : String)
    (heq : genCodeExpr varList st1 (writeLoopHeaders (w.write initLine) rs) body =
      .ok (st2, w2, inner)) :
    (closeLoops (w2.write updLine) rs.length).numTabFromMargin =
      w.numTabFromMargin ∧
    ∃ bodyLines,
      (closeLoops (w2.write updLine) rs.length).lines =
        w.lines ++ [w.indentStr ++ initLine] ++
        headerLinesSpec w.tabType w.tabSize w.numTabFromMargin rs ++
        bodyLines ++
        [getIndentString w.tabType w.tabSize
            (w.numTabFromMargin + rs.length) ++ updLine] ++
        closeLinesSpec w.tabType w.tabSize
          (w.numTabFromMargin + rs.length) rs.length := by
  obtain ⟨a1, a2, a3, a4, a5⟩ := writeLoopHeaders_spec rs (w.write initLine)
    (FileCodeWriter.coherent_write hco initLine)
  obtain ⟨b1, b2, b3, b4, bls, b5⟩ :=
    genCodeExpr_extends varList body st1 _ (st2, w2, inner) a4 heq
  have hca : ((w2.write updLine)).Coherent :=
    FileCodeWriter.coherent_write b4 updLine
  have hle : ((rs.length : Nat) : Int) ≤ (w2.write updLine).numTabFromMargin := by
    rw [FileCodeWriter.write_numTab, b3, a3, FileCodeWriter.write_numTab]
    have := hco.1
    omega
  obtain ⟨c1, c2, c3, c4, c5⟩ := closeLoops_spec rs.length (w2.write updLine) hca hle
  constructor
  · rw [c3, FileCodeWriter.write_numTab, b3, a3, FileCodeWriter.write_numTab]
    omega
  · refine ⟨bls, ?_⟩
    rw [c5, FileCodeWriter.write_lines, b5, a5, FileCodeWriter.write_lines]
    have et : (w2.write updLine).tabType = w.tabType := by
      rw [FileCodeWriter.write_tabType, b1, a1, FileCodeWriter.write_tabType]
    have es : (w2.write updLine).tabSize = w.tabSize := by
      rw [FileCodeWriter.write_tabSize, b2, a2, FileCodeWriter.write_tabSize]
    have en : (w2.write updLine).numTabFromMargin =
        w.numTabFromMargin + rs.length := by
      rw [FileCodeWriter.write_numTab, b3, a3, FileCodeWriter.write_numTab]
    have ei : w2.indentStr =
        getIndentString w.tabType w.tabSize (w.numTabFromMargin + rs.length) := by
      rw [b4.2]
      rw [b1, a1, FileCodeWriter.write_tabType, b2, a2,
        FileCodeWriter.write_tabSize, b3, a3, FileCodeWriter.write_numTab]
    rw [et, es, en, ei]
    simp only [FileCodeWriter.write_tabType, FileCodeWriter.write_tabSize,
      FileCodeWriter.write_numTab, List.append_assoc]

/-- C2: for every sum-loop or product-loop node, a successful lowering
returns the name of a fresh accumulator temporary (`<stem>_<counter>`),
and the emitted lines are: the accumulator initialization (`0.000000`
for a sum, `1.000000` for a product), then one counted inclusive
`for (int v = lo; v <= hi; v += 1)` header per loop range — a literal
number bound printed as an integer constant by `loopBoundStr` inside
`forHeaderLine` — then the lowered body, then, at the innermost
indentation level, the accumulator update with `+=` (sum) or `*=`
(product), then the closing braces; the indent level is restored. -/
theorem c2_sum_product_loop_lowering (varList : List Variable)
    (st : ExprGenState) (w : FileCodeWriter) (body : SymExpr)
    (rs : List LoopRange) (hco : w.Coherent) :
    (∀ (st' : ExprGenState) (w' : FileCodeWriter) (res : String),
      genCodeExpr varList st w (.sumLoop body rs) = .ok (st', w', res) →
      res = st.tempVarStem ++ "_" ++ toString st.numTempVarUsed ∧
      w'.numTabFromMargin = w.numTabFromMargin ∧
      ∃ bodyLines innerName,
        w'.lines =
          w.lines ++
          [w.indentStr ++ ("double " ++ res ++ " = 0.000000;\n")] ++
          headerLinesSpec w.tabType w.tabSize w.numTabFromMargin rs ++
          bodyLines ++
          [getIndentString w.tabType w.tabSize
              (w.numTabFromMargin + rs.length) ++
            (res ++ " += " ++ innerName ++ ";\n")] ++
          closeLinesSpec w.tabType w.tabSize
            (w.numTabFromMargin + rs.length) rs.length) ∧
    (∀ (st' : ExprGenState) (w' : FileCodeWriter) (res : String),
      genCodeExpr varList st w (.prodLoop body rs) = .ok (st', w', res) →
      res = st.tempVarStem ++ "_" ++ toString st.numTempVarUsed ∧
      w'.numTabFromMargin = w.numTabFromMargin ∧
      ∃ bodyLines innerName,
        w'.lines =
          w.lines ++
          [w.indentStr ++ ("double " ++ res ++ " = 1.000000;\n")] ++
          headerLinesSpec w.tabType w.tabSize w.numTabFromMargin rs ++
          bodyLines ++
          [getIndentString w.tabType w.tabSize
              (w.numTabFromMargin + rs.length) ++
            (res ++ " *= " ++ innerName ++ ";\n")] ++
          closeLinesSpec w.tabType w.tabSize
            (w.numTabFromMargin + rs.length) rs.length) := by
  constructor
  · intro st' w' res h
    simp only [genCodeExpr, getNxtTempVarName] at h
    split at h
    · cases h
    · next st2 w2 inner heq =>
      injection h with h'
      simp only [Prod.mk.injEq] at h'
      obtain ⟨rfl, rfl, rfl⟩ := h'
      refine ⟨rfl, ?_, ?_⟩
      · exact (loopEmission_lines varList w hco _ _ rs _ body st2 w2 inner heq).1
      · obtain ⟨bls, hl⟩ :=
          (loopEmission_lines varList w hco _ _ rs _ body st2 w2 inner heq).2
        exact ⟨bls, inner, hl⟩
  · intro st' w' res h
    simp only [genCodeExpr, getNxtTempVarName] at h
    split at h
    · cases h
    · next st2 w2 inner heq =>
      injection h with h'
      simp only [Prod.mk.injEq] at h'
      obtain ⟨rfl, rfl, rfl⟩ := h'
      refine ⟨rfl, ?_, ?_⟩
      · exact (loopEmission_lines varList w hco _ _ rs _ body st2 w2 inner heq).1
      · obtain ⟨bls, hl⟩ :=
          (loopEmission_lines varList w hco _ _ rs _ body st2 w2 inner heq).2
        exact ⟨bls, inner, hl⟩

/-- Witness for `c2_sum_product_loop_lowering`: the sum conjunct applied
to the concrete run of `for i in [0, 4] sum(x)` from a fresh writer. -/
theorem c2_sum_product_loop_lowering_witness :
    "__temp_0" = mkExprGenState.tempVarStem ++ "_" ++
      toString mkExprGenState.numTempVarUsed ∧
    (FileCodeWriter.mk .bySpace 2 0 ""
        ["double __temp_0 = 0.000000;\n", "for (int i = 0; i <= 4; i += 1) \x7b\n",
          "  __temp_0 += x;\n", "\x7d\n"]).numTabFromMargin =
      (FileCodeWriter.mkInitial .bySpace 2).numTabFromMargin ∧
    ∃ bodyLines innerName,
      (FileCodeWriter.mk .bySpace 2 0 ""
          ["double __temp_0 = 0.000000;\n", "for (int i = 0; i <= 4; i += 1) \x7b\n",
            "  __temp_0 += x;\n", "\x7d\n"]).lines =
        (FileCodeWriter.mkInitial .bySpace 2).lines ++
        [(FileCodeWriter.mkInitial .bySpace 2).indentStr ++
          ("double " ++ "__temp_0" ++ " = 0.000000;\n")] ++
        headerLinesSpec .bySpace 2 0
          [⟨"i", LoopBound.num 0, LoopBound.num 4⟩] ++
        bodyLines ++
        [getIndentString .bySpace 2
            ((FileCodeWriter.mkInitial .bySpace 2).numTabFromMargin +
              ([⟨"i", LoopBound.num 0, LoopBound.num 4⟩] : List LoopRange).length) ++
          ("__temp_0" ++ " += " ++ innerName ++ ";\n")] ++
        closeLinesSpec .bySpace 2
          ((FileCodeWriter.mkInitial .bySpace 2).numTabFromMargin +
            ([⟨"i", LoopBound.num 0, LoopBound.num 4⟩] : List LoopRange).length) 1 :=
  (c2_sum_product_loop_lowering [⟨"x", .number, []⟩] mkExprGenState
      (FileCodeWriter.mkInitial .bySpace 2) (.sym "x")
      [⟨"i", LoopBound.num 0, LoopBound.num 4⟩]
      (FileCodeWriter.coherent_mkInitial .bySpace 2)).1
    ⟨"__temp", 1⟩
    (FileCodeWriter.mk .bySpace 2 0 ""
      ["double __temp_0 = 0.000000;\n", "for (int i = 0; i <= 4; i += 1) \x7b\n",
        "  __temp_0 += x;\n", "\x7d\n"])
    "__temp_0" rfl

/-! ### `DerivativeCodeGenerator` (libgencode/derivativecode.py) and
`JavaHessianCodeGenerator` (libgencode/hessiancode.py) -/

/-- One scalarized differentiation variable of
`_expanded_diff_var_list`: `Symbol(name)` for a number variable, or the
matrix element `name[i, j]` for a vector / matrix variable. -/
inductive DiffAtom where
  | scalar (name : String)
  | element (name : String) (i j : Nat)
deriving DecidableEq

instance : Inhabited DiffAtom := ⟨.scalar ""⟩

/-- The expansion loop of `DerivativeCodeGenerator.__init__`: a number
variable contributes one symbol; a vector of size n (shape `(n, 1)`)
contributes `n` elements `(i, 0)`; a matrix of shape `(r, c)`
contributes its `r * c` elements in row-major order. -/
def expandDiffVarList (diffVarList : List Variable) : List DiffAtom :=
  diffVarList.flatMap (fun varObj =>
    match varObj.varType with
    | .number => [.scalar varObj.name]
    | .vector =>
      (List.range (varObj.dimension.getD 0 0)).flatMap (fun i =>
        (List.range 1).map (fun j => .element varObj.name i j))
    | .matrix =>
      (List.range (varObj.dimension.getD 0 0)).flatMap (fun i =>
        (List.range (varObj.dimension.getD 1 0)).map (fun j =>
          .element varObj.name i j)))

/-- `DerivativeCodeGenerator.get_derivative_func_name`. -/
def getDerivativeFuncName (baseFuncName : String) (firstVarInd : Nat)
    (secondVarInd : Option Nat) (autoAddSuffix : Bool) : String :=
  if !autoAddSuffix then baseFuncName
  else
    match secondVarInd with
    | none => baseFuncName ++ "_" ++ toString firstVarInd
    | some j => baseFuncName ++ "_" ++ toString firstVarInd ++ "_" ++ toString j

theorem getDerivativeFuncName_second (baseFuncName : String) (i j : Nat) :
    getDerivativeFuncName baseFuncName i (some j) true =
      baseFuncName ++ "_" ++ toString i ++ "_" ++ toString j := rfl

/-- `DerivativeCodeGenerator.gen_code_all_second_order`, abstracted over
the external differentiation operation `d` (the source's
`sympyutils.first_order_derivative`) and projected onto the
`(function name, derivative expression)` pairs handed to the
expression code generator, in generation order: for each `i`, the first
order derivative by atom `i` is taken once, and for each `j` in
`[i, n)` the function `<base>_<i>_<j>` is built from the derivative of
that by atom `j`. -/
def genCodeAllSecondOrderFuncs {α : Type} (d : α → DiffAtom → α) (expr : α)
    (baseFuncName : String) (atoms : List DiffAtom) : List (String × α) :=
  (List.range atoms.length).flatMap (fun firstVarInd =>
    let firstOrderDiff := d expr (atoms.getD firstVarInd default)
    (List.range' firstVarInd (atoms.length - firstVarInd)).map (fun secondVarInd =>
      (getDerivativeFuncName baseFuncName firstVarInd (some secondVarInd) true,
        d firstOrderDiff (atoms.getD secondVarInd default))))

/-- The upper-triangle index pairs `(i, j)`, `i ≤ j < n`, in the
generation order of the source's nested loops. -/
def upperTrianglePairs (n : Nat) : List (Nat × Nat) :=
  (List.range n).flatMap (fun i => (List.range' i (n - i)).map (fun j => (i, j)))

/-- The statements emitted by `__gen_simple_hessian_body` for one
upper-triangle pair: the `__temp[i][j]` assignment from the derivative
function call, and, off the diagonal, the mirrored `__temp[j][i]`
copy. -/
def hessianEntryLines (baseFuncName paramList : String) (p : Nat × Nat) :
    List String :=
  ("__temp[" ++ toString p.1 ++ "][" ++ toString p.2 ++ "] = " ++
    getDerivativeFuncName baseFuncName p.1 (some p.2) true ++ "(" ++
    paramList ++ ");\n") ::
  (if p.1 == p.2 then []
   else ["__temp[" ++ toString p.2 ++ "][" ++ toString p.1 ++ "] = __temp[" ++
     toString p.1 ++ "][" ++ toString p.2 ++ "];\n"])

/-- `JavaHessianCodeGenerator.__gen_simple_hessian_body`: allocate the
`__temp` matrix, fill the upper triangle from the derivative functions
(mirroring off-diagonal entries), return it. -/
def genSimpleHessianBody (numDiffVar : Nat) (baseFuncName : String)
    (varList : List Variable) (w : FileCodeWriter) : FileCodeWriter :=
  let paramList := String.intercalate ", " (varList.map (fun v => v.name))
  let w1 := w.write ("double[][] __temp = new double[" ++ toString numDiffVar ++
    "][" ++ toString numDiffVar ++ "];\n")
  let w2 := (List.range numDiffVar).foldl (fun wa i =>
    (List.range' i (numDiffVar - i)).foldl (fun wb j =>
      let wc := wb.write ("__temp[" ++ toString i ++ "][" ++ toString j ++
        "] = " ++ getDerivativeFuncName baseFuncName i (some j) true ++ "(" ++
        paramList ++ ");\n")
      if i == j then wc
      else wc.write ("__temp[" ++ toString j ++ "][" ++ toString i ++
        "] = __temp[" ++ toString i ++ "][" ++ toString j ++ "];\n")) wa) w1
  w2.write ("return __temp;\n")

theorem FileCodeWriter.writeAll_lines (ls : List String) :
    ∀ w : FileCodeWriter,
      (w.writeAll ls).lines = w.lines ++ ls.map (fun s => w.indentStr ++ s) := by
  induction ls with
  | nil => intro w; simp [FileCodeWriter.writeAll]
  | cons s rest ih =>
    intro w
    have : w.writeAll (s :: rest) = (w.write s).writeAll rest := rfl
    rw [this, ih (w.write s), FileCodeWriter.write_lines, FileCodeWriter.write_indentStr]
    simp

theorem FileCodeWriter.writeAll_indentStr (ls : List String) :
    ∀ w : FileCodeWriter, (w.writeAll ls).indentStr = w.indentStr := by
  induction ls with
  | nil => intro w; rfl
  | cons s rest ih =>
    intro w
    have : w.writeAll (s :: rest) = (w.write s).writeAll rest := rfl
    rw [this, ih (w.write s), FileCodeWriter.write_indentStr]

theorem FileCodeWriter.writeAll_append (w : FileCodeWriter) (l1 l2 : List String) :
    w.writeAll (l1 ++ l2) = (w.writeAll l1).writeAll l2 := by
  simp [FileCodeWriter.writeAll, List.foldl_append]

theorem foldl_writeAll {β : Type} (g : β → List String) (l : List β) :
    ∀ w : FileCodeWriter,
      l.foldl (fun acc b => acc.writeAll (g b)) w = w.writeAll (l.flatMap g) := by
  induction l with
  | nil => intro w; rfl
  | cons b rest ih =>
    intro w
    rw [List.foldl_cons, ih, List.flatMap_cons, FileCodeWriter.writeAll_append]

theorem foldl_congr_step {β γ : Type} (f g : γ → β → γ) (l : List β)
    (h : ∀ acc b, f acc b = g acc b) :
    ∀ init : γ, l.foldl f init = l.foldl g init := by
  induction l with
  | nil => intro init; rfl
  | cons b rest ih =>
    intro init
    rw [List.foldl_cons, List.foldl_cons, h, ih]

/-- C1: over the expanded differentiation-variable list, a second-order
derivative function named `<base>_<i>_<j>` is generated exactly for the
index pairs with `i ≤ j` (first conjunct: membership in the generated
list is equivalent to being such a pair, the body differentiating first
by atom `i` and then by atom `j`); the direct-strategy Hessian body
consists of the `__temp` allocation, then, per upper-triangle pair in
the same order, the assignment of `__temp[i][j]` from a call to
`<base>_<i>_<j>` followed (when `i ≠ j`) by the copy
`__temp[j][i] = __temp[i][j]`, and the return statement (second
conjunct); and the upper-triangle pair list contains `(i, j)` exactly
when `i ≤ j < n` (third conjunct) — so the `[i][j]` and `[j][i]`
entries always come from the same derivative function. -/
theorem c1_second_order_and_hessian_symmetry {α : Type} (d : α → DiffAtom → α)
    (expr : α) (baseFuncName : String) (diffVarList varList : List Variable)
    (w : FileCodeWriter) :
    (∀ p : String × α,
      p ∈ genCodeAllSecondOrderFuncs d expr baseFuncName
          (expandDiffVarList diffVarList) ↔
      ∃ i j, i ≤ j ∧ j < (expandDiffVarList diffVarList).length ∧
        p = (baseFuncName ++ "_" ++ toString i ++ "_" ++ toString j,
          d (d expr ((expandDiffVarList diffVarList).getD i default))
            ((expandDiffVarList diffVarList).getD j default))) ∧
    ((genSimpleHessianBody (expandDiffVarList diffVarList).length baseFuncName
        varList w).lines =
      w.lines ++
        (("double[][] __temp = new double[" ++
            toString (expandDiffVarList diffVarList).length ++ "][" ++
            toString (expandDiffVarList diffVarList).length ++ "];\n") ::
          ((upperTrianglePairs (expandDiffVarList diffVarList).length).flatMap
            (hessianEntryLines baseFuncName
              (String.intercalate ", " (varList.map (fun v => v.name)))) ++
           ["return __temp;\n"])).map (fun s => w.indentStr ++ s)) ∧
    (∀ i j : Nat,
      (i, j) ∈ upperTrianglePairs (expandDiffVarList diffVarList).length ↔
      i ≤ j ∧ j < (expandDiffVarList diffVarList).length) := by
  refine ⟨?_, ?_, ?_⟩
  · intro p
    simp only [genCodeAllSecondOrderFuncs, getDerivativeFuncName_second,
      List.mem_flatMap, List.mem_map, List.mem_range, List.mem_range'_1]
    constructor
    · rintro ⟨a, ha, b, ⟨h1, h2⟩, heq⟩
      exact ⟨a, b, h1, by omega, heq.symm⟩
    · rintro ⟨i, j, hij, hj, rfl⟩
      exact ⟨i, by omega, j, ⟨hij, by omega⟩, rfl⟩
  · generalize (expandDiffVarList diffVarList).length = n
    simp only [genSimpleHessianBody]
    have hinner : ∀ (i : Nat) (wa : FileCodeWriter),
        (List.range' i (n - i)).foldl (fun wb j =>
          let wc := wb.write ("__temp[" ++ toString i ++ "][" ++ toString j ++
            "] = " ++ getDerivativeFuncName baseFuncName i (some j) true ++ "(" ++
            String.intercalate ", " (varList.map (fun v => v.name)) ++ ");\n")
          if i == j then wc
          else wc.write ("__temp[" ++ toString j ++ "][" ++ toString i ++
            "] = __temp[" ++ toString i ++ "][" ++ toString j ++ "];\n")) wa =
        wa.writeAll ((List.range' i (n - i)).flatMap (fun j =>
          hessianEntryLines baseFuncName
            (String.intercalate ", " (varList.map (fun v => v.name))) (i, j))) := by
      intro i wa
      rw [foldl_congr_step _ (fun wb j => wb.writeAll
        (hessianEntryLines baseFuncName
          (String.intercalate ", " (varList.map (fun v => v.name))) (i, j))) _ ?_ wa]
      · exact foldl_writeAll _ _ wa
      · intro wb j
        cases hij : i == j <;>
          simp [hessianEntryLines, hij, FileCodeWriter.writeAll]
    have houter :
        (List.range n).foldl (fun wa i =>
          (List.range' i (n - i)).foldl (fun wb j =>
            let wc := wb.write ("__temp[" ++ toString i ++ "][" ++ toString j ++
              "] = " ++ getDerivativeFuncName baseFuncName i (some j) true ++ "(" ++
              String.intercalate ", " (varList.map (fun v => v.name)) ++ ");\n")
            if i == j then wc
            else wc.write ("__temp[" ++ toString j ++ "][" ++ toString i ++
              "] = __temp[" ++ toString i ++ "][" ++ toString j ++ "];\n")) wa)
          (w.write ("double[][] __temp = new double[" ++ toString n ++ "][" ++
            toString n ++ "];\n")) =
        (w.write ("double[][] __temp = new double[" ++ toString n ++ "][" ++
            toString n ++ "];\n")).writeAll
          ((List.range n).flatMap (fun i => (List.range' i (n - i)).flatMap (fun j =>
            hessianEntryLines baseFuncName
              (String.intercalate ", " (varList.map (fun v => v.name))) (i, j)))) := by
      rw [foldl_congr_step _ (fun wa i => wa.writeAll
        ((List.range' i (n - i)).flatMap (fun j =>
          hessianEntryLines baseFuncName
            (String.intercalate ", " (varList.map (fun v => v.name))) (i, j)))) _ ?_]
      · exact foldl_writeAll _ _ _
      · intro wa i
        exact hinner i wa
    rw [houter]
    have hpairs : (upperTrianglePairs n).flatMap
        (hessianEntryLines baseFuncName
          (String.intercalate ", " (varList.map (fun v => v.name)))) =
        (List.range n).flatMap (fun i => (List.range' i (n - i)).flatMap (fun j =>
          hessianEntryLines baseFuncName
            (String.intercalate ", " (varList.map (fun v => v.name))) (i, j))) := by
      simp [upperTrianglePairs, List.flatMap_assoc, List.flatMap_map]
    rw [← hpairs, FileCodeWriter.write_lines, FileCodeWriter.writeAll_lines,
      FileCodeWriter.writeAll_indentStr, FileCodeWriter.write_lines,
      FileCodeWriter.write_indentStr]
    simp
  · intro i j
    simp only [upperTrianglePairs, List.mem_flatMap, List.mem_map, List.mem_range,
      List.mem_range'_1, Prod.mk.injEq]
    constructor
    · rintro ⟨a, ha, b, ⟨h1, h2⟩, rfl, rfl⟩
      omega
    · rintro ⟨hij, hj⟩
      exact ⟨i, by omega, j, ⟨hij, by omega⟩, rfl, rfl⟩

/-! ### AST model (parsing/astdef.py) -/

/-- The `AstExprType` type enum: NUMBER, VECTOR, MATRIX. -/
inductive AstTypeKind where
  | number
  | vector
  | matrix
deriving DecidableEq

/-- One component of an `AstExprType` dimension tuple: a Python int or
the name of a declared number variable (symbolic dimension). -/
inductive AstDim where
  | int (n : Int)
  | name (s : String)
deriving DecidableEq

/-- `AstExprType`: an expression type together with its dimension
tuple. -/
structure AstExprType where
  type : AstTypeKind
  dimension : List AstDim
deriving DecidableEq

/-- The Python comparison `dimension[k] == 1`: true for the int 1, false
for any name (a string never equals an int in Python). -/
def dimEqOne : AstDim → Bool
  | .int n => n == 1
  | .name _ => false

/-- `AstExprType.is_single_member`: a number, a vector of size 1, or a
1 x 1 matrix. -/
def isSingleMember (t : AstExprType) : Bool :=
  match t.type with
  | .number => true
  | .vector => dimEqOne (t.dimension.getD 0 (.int 0))
  | .matrix =>
    dimEqOne (t.dimension.getD 0 (.int 0)) && dimEqOne (t.dimension.getD 1 (.int 0))

/-- `AstSymbolFlag` enum. -/
inductive AstSymbolFlag where
  | equivalent
  | normal
  | noDiff
  | usedInLoop
deriving DecidableEq

/-- `AstSymbol`: a symbol variable of the AST. -/
structure AstSymbol where
  name : String
  typeInfo : AstExprType
  flag : AstSymbolFlag
deriving DecidableEq

/-- Binary operators of `AstOperator` (`ADD SUB MUL DIV POW DOT CROSS`). -/
inductive AstBinaryOp where
  | add
  | sub
  | mul
  | div
  | pow
  | dot
  | cross
deriving DecidableEq

/-- Function operators of `AstOperator`
(`ABS SQRT SIN COS TAN COT LN NORM TRANSPOSE`). -/
inductive AstFuncOp where
  | abs
  | sqrt
  | sin
  | cos
  | tan
  | cot
  | ln
  | norm
  | transpose
deriving DecidableEq

mutual
/-- `AstExpression` nodes, with one constructor per operator / operand
shape that `__set_expr_type` and `to_sympy_str` dispatch on.
`collectionVec` is an `EXPR_COLLECTION` whose operands are expressions
(vector literal); `collectionMat` one whose operands are lists of
expressions (matrix literal).  `indexing` always has three operands as
built by `p_vector_index` / `p_matrix_index`. -/
inductive AstExpression where
  | symbolNode (s : AstSymbol)
  | collectionVec (elems : AstExprList)
  | collectionMat (rows : AstRowList)
  | binary (op : AstBinaryOp) (lhs rhs : AstExpression)
  | uminus (a : AstExpression)
  | funcCall (f : AstFuncOp) (arg : AstExpression)
  | transposeShort (a : AstExpression)
  | indexing (src idx1 idx2 : AstExpression)
  | rangeNode (v lo hi : AstExpression)
  | loopNode (isProduct : Bool) (body : AstExpression) (ranges : AstExprList)
/-- A list of operand expressions. -/
inductive AstExprList where
  | nil
  | cons (head : AstExpression) (tail : AstExprList)
/-- A list of rows (matrix-literal operands). -/
inductive AstRowList where
  | nil
  | cons (head : AstExprList) (tail : AstRowList)
end

/-- Length of an operand list (`len(self.operands)`). -/
def AstExprList.length : AstExprList → Nat
  | .nil => 0
  | .cons _ tail => tail.length + 1

/-- Number of rows (`len(self.operands)`). -/
def AstRowList.length : AstRowList → Nat
  | .nil => 0
  | .cons _ tail => tail.length + 1

/-- Number of columns (`len(self.operands[0])`; the grammar guarantees a
matrix literal has at least one row). -/
def AstRowList.headLen : AstRowList → Nat
  | .nil => 0
  | .cons head _ => head.length

/-- The trailing collapse step of `__set_expr_type` (lines 382-385): a
non-NUMBER single-member type is re-typed as NUMBER with the
`_size_one_mat` flag set. -/
def applyCollapse (t : AstExprType) : AstExprType × Bool :=
  if t.type != AstTypeKind.number && isSingleMember t then
    (⟨AstTypeKind.number, []⟩, true)
  else (t, false)

/-- `AstExpression.__set_expr_type`, run bottom-up at construction time:
the branch dispatch computing the raw type, followed by the collapse
step.  Returns the pair `(expr_type, _size_one_mat)`. -/
def exprTypeFlag : AstExpression → AstExprType × Bool
  | .symbolNode s => applyCollapse s.typeInfo
  | .collectionVec elems =>
    applyCollapse ⟨AstTypeKind.vector, [.int elems.length, .int 1]⟩
  | .collectionMat rows =>
    applyCollapse ⟨AstTypeKind.matrix, [.int rows.length, .int rows.headLen]⟩
  | .binary op lhs rhs =>
    applyCollapse (match op with
      | .dot => ⟨AstTypeKind.number, []⟩
      | .mul =>
        if (exprTypeFlag lhs).1.type == AstTypeKind.number then
          (exprTypeFlag rhs).1
        else if (exprTypeFlag rhs).1.type == AstTypeKind.number then
          (exprTypeFlag lhs).1
        else
          ⟨AstTypeKind.matrix,
            [(exprTypeFlag lhs).1.dimension.getD 0 (.int 0),
             (exprTypeFlag rhs).1.dimension.getD 1 (.int 0)]⟩
      | _ => (exprTypeFlag lhs).1)
  | .uminus a => applyCollapse (exprTypeFlag a).1
  | .funcCall f arg =>
    applyCollapse (match f with
      | .transpose =>
        ⟨AstTypeKind.matrix, (exprTypeFlag arg).1.dimension.reverse⟩
      | .norm => ⟨AstTypeKind.number, []⟩
      | _ => (exprTypeFlag arg).1)
  | .transposeShort a =>
    applyCollapse ⟨AstTypeKind.matrix, (exprTypeFlag a).1.dimension.reverse⟩
  | .indexing _ _ _ => applyCollapse ⟨AstTypeKind.number, []⟩
  | .rangeNode _ _ _ =>
    applyCollapse ⟨AstTypeKind.vector, [.int 2, .int 1]⟩
  | .loopNode _ body _ => applyCollapse (exprTypeFlag body).1

/-- The raw (pre-collapse) type computed by the branch dispatch of
`__set_expr_type`, reading the children's already-collapsed types. -/
def rawExprType : AstExpression → AstExprType
  | .symbolNode s => s.typeInfo
  | .collectionVec elems => ⟨AstTypeKind.vector, [.int elems.length, .int 1]⟩
  | .collectionMat rows =>
    ⟨AstTypeKind.matrix, [.int rows.length, .int rows.headLen]⟩
  | .binary op lhs rhs =>
    match op with
    | .dot => ⟨AstTypeKind.number, []⟩
    | .mul =>
      if (exprTypeFlag lhs).1.type == AstTypeKind.number then
        (exprTypeFlag rhs).1
      else if (exprTypeFlag rhs).1.type == AstTypeKind.number then
        (exprTypeFlag lhs).1
      else
        ⟨AstTypeKind.matrix,
          [(exprTypeFlag lhs).1.dimension.getD 0 (.int 0),
           (exprTypeFlag rhs).1.dimension.getD 1 (.int 0)]⟩
    | _ => (exprTypeFlag lhs).1
  | .uminus a => (exprTypeFlag a).1
  | .funcCall f arg =>
    match f with
    | .transpose => ⟨AstTypeKind.matrix, (exprTypeFlag arg).1.dimension.reverse⟩
    | .norm => ⟨AstTypeKind.number, []⟩
    | _ => (exprTypeFlag arg).1
  | .transposeShort a =>
    ⟨AstTypeKind.matrix, (exprTypeFlag a).1.dimension.reverse⟩
  | .indexing _ _ _ => ⟨AstTypeKind.number, []⟩
  | .rangeNode _ _ _ => ⟨AstTypeKind.vector, [.int 2, .int 1]⟩
  | .loopNode _ body _ => (exprTypeFlag body).1

/-- `sympyutils.get_reserved_var_names`. -/
def getReservedVarNames : List String :=
  ["___tmp_loop_counter_1", "___tmp_loop_counter_2"]

/-- `str` of a dimension component. -/
def astDimStr : AstDim → String
  | .int n => toString n
  | .name s => s

/-- `AstOperator.get_sympy_str` for the binary operators handled by the
final `to_sympy_str` branch. -/
def astBinaryOpStr : AstBinaryOp → String
  | .add => "+"
  | .sub => "-"
  | .mul => "*"
  | .div => "/"
  | .pow => "**"
  | .dot => "."
  | .cross => "#"

/-- `AstOperator.get_sympy_str` for the function operators. -/
def astFuncOpStr : AstFuncOp → String
  | .abs => "Abs"
  | .sqrt => "sqrt"
  | .sin => "sin"
  | .cos => "cos"
  | .tan => "tan"
  | .cot => "cot"
  | .ln => "log"
  | .norm => "norm"
  | .transpose => "Transpose"

mutual
/-- `AstExpression.to_sympy_str`: the branch dispatch (`toSympyCore`)
followed by the `(...)[0,0]` wrap when `_size_one_mat` is set.  The
collection branches reproduce the Python dynamic-typing behaviour: the
branch is chosen by comparing the COLLAPSED type with VECTOR, so a
collapsed (length-1) vector literal falls into the matrix branch, which
iterates its expression operands as if they were rows and raises
`TypeError`; symmetrically a (hypothetical) matrix literal in the
vector branch would call `to_sympy_str` on a list (AttributeError). -/
def toSympyStr (e : AstExpression) : Except String String :=
  match toSympyCore e with
  | .error err => .error err
  | .ok s =>
    if (exprTypeFlag e).2 then .ok ("(" ++ s ++ ")[0,0]") else .ok s
termination_by (sizeOf e, 1)
/-- The branch dispatch of `to_sympy_str` (before the wrap step). -/
def toSympyCore (e : AstExpression) : Except String String :=
  match e with
  | .symbolNode s => .ok s.name
  | .collectionVec elems =>
    if (exprTypeFlag (.collectionVec elems)).1.type == AstTypeKind.vector then
      match toSympyStrList elems with
      | .error err => .error err
      | .ok strs => .ok ("Matrix([" ++ String.intercalate "," strs ++ "])")
    else .error "TypeError: iteration over non-sequence AstExpression"
  | .collectionMat rows =>
    if (exprTypeFlag (.collectionMat rows)).1.type == AstTypeKind.vector then
      .error "AttributeError: list instance has no attribute to_sympy_str"
    else
      match toSympyRowStrs rows with
      | .error err => .error err
      | .ok comps => .ok ("Matrix([" ++ String.intercalate "," comps ++ "])")
  | .binary .dot lhs rhs =>
    match toSympyStr lhs with
    | .error err => .error err
    | .ok sa =>
      match toSympyStr rhs with
      | .error err => .error err
      | .ok sb => .ok ("((" ++ sa ++ ").T*(" ++ sb ++ "))[0,0]")
  | .binary .cross lhs rhs =>
    match toSympyStr lhs with
    | .error err => .error err
    | .ok sa =>
      match toSympyStr rhs with
      | .error err => .error err
      | .ok sb => .ok ("Matrix(" ++ sa ++ ").cross(Matrix(" ++ sb ++ "))")
  | .uminus a =>
    match toSympyStr a with
    | .error err => .error err
    | .ok sa => .ok ("-(" ++ sa ++ ")")
  | .indexing src idx1 idx2 =>
    match toSympyStr src with
    | .error err => .error err
    | .ok ssrc =>
      match toSympyStr idx1 with
      | .error err => .error err
      | .ok s1 =>
        match toSympyStr idx2 with
        | .error err => .error err
        | .ok s2 => .ok ("(" ++ ssrc ++ ")[" ++ s1 ++ "," ++ s2 ++ "]")
  | .transposeShort a =>
    match toSympyStr a with
    | .error err => .error err
    | .ok sa => .ok ("(" ++ sa ++ ").T")
  | .funcCall .norm arg => getNormSympyStr arg
  | .funcCall f arg =>
    match toSympyStr arg with
    | .error err => .error err
    | .ok sa => .ok (astFuncOpStr f ++ "(" ++ sa ++ ")")
  | .rangeNode v lo hi =>
    match toSympyStr v with
    | .error err => .error err
    | .ok sv =>
      match toSympyStr lo with
      | .error err => .error err
      | .ok slo =>
        match toSympyStr hi with
        | .error err => .error err
        | .ok shi => .ok ("(" ++ sv ++ "," ++ slo ++ "," ++ shi ++ ")")
  | .loopNode isProduct body ranges =>
    match toSympyStr body with
    | .error err => .error err
    | .ok sbody =>
      match toSympyStrList ranges with
      | .error err => .error err
      | .ok rstrs =>
        .ok ((if isProduct then "Product" else "Sum") ++ "(" ++
          String.intercalate "," (sbody :: rstrs) ++ ")")
  | .binary op lhs rhs =>
    match toSympyStr lhs with
    | .error err => .error err
    | .ok sa =>
      match toSympyStr rhs with
      | .error err => .error err
      | .ok sb => .ok ("(" ++ sa ++ ")" ++ astBinaryOpStr op ++ "(" ++ sb ++ ")")
termination_by (sizeOf e, 0)
/-- `get_norm_sympy_str` (astdef.py, module level): Frobenius / 2-norm
sympy text for the norm operand.  The NUMBER branch reproduces the
source's unbalanced `"sqrt((%s)**2"` format string faithfully. -/
def getNormSympyStr (astExpr : AstExpression) : Except String String :=
  match toSympyStr astExpr with
  | .error err => .error err
  | .ok exprStr =>
    let counterVars := getReservedVarNames
    let exprType := (exprTypeFlag astExpr).1
    match exprType.type with
    | .number => .ok ("sqrt((" ++ exprStr ++ ")**2")
    | .vector =>
      .ok ("sqrt(Sum(((" ++ exprStr ++ ")[" ++ counterVars.getD 0 "" ++
        ",0])**2,(" ++ counterVars.getD 0 "" ++ ",0," ++
        astDimStr (exprType.dimension.getD 0 (.int 0)) ++ "-1)))")
    | .matrix =>
      .ok ("sqrt(Sum(Sum(((" ++ exprStr ++ ")[" ++ counterVars.getD 0 "" ++
        "," ++ counterVars.getD 1 "" ++ "])**2,(" ++ counterVars.getD 0 "" ++
        ",0," ++ astDimStr (exprType.dimension.getD 0 (.int 0)) ++ "-1)),(" ++
        counterVars.getD 1 "" ++ ",0," ++
        astDimStr (exprType.dimension.getD 1 (.int 0)) ++ "-1))")
termination_by (sizeOf astExpr, 2)
/-- `to_sympy_str` over an operand list. -/
def toSympyStrList (l : AstExprList) : Except String (List String) :=
  match l with
  | .nil => .ok []
  | .cons e rest =>
    match toSympyStr e with
    | .error err => .error err
    | .ok s =>
      match toSympyStrList rest with
      | .error err => .error err
      | .ok strs => .ok (s :: strs)
termination_by (sizeOf l, 0)
/-- Row strings of a matrix literal (`"[%s]" % ",".join(row_strs)`). -/
def toSympyRowStrs (l : AstRowList) : Except String (List String) :=
  match l with
  | .nil => .ok []
  | .cons row rest =>
    match toSympyStrList row with
    | .error err => .error err
    | .ok strs =>
      match toSympyRowStrs rest with
      | .error err => .error err
      | .ok comps => .ok (("[" ++ String.intercalate "," strs ++ "]") :: comps)
termination_by (sizeOf l, 0)
end

/-- C4: every AST node's type is computed as the raw branch dispatch
followed by the collapse step: a node whose raw shape is a length-1
vector or a 1 x 1 matrix is re-typed as NUMBER with the `_size_one_mat`
flag set, and any other node keeps its raw type with the flag clear
(first conjunct, an unconditional equation).  The projection wraps a
flagged node's text as `(...)[0,0]` — as the 1 x 1 matrix literal
`[[3]]` shows (fourth/fifth conjuncts) — and leaves unflagged nodes
unwrapped (last conjuncts).  The claim FAILS on the code for a length-1
vector literal such as `[3]`: it is collapsed to NUMBER as claimed
(second/third conjuncts), but its projection then takes the matrix
branch of `to_sympy_str` (the collapsed type no longer compares equal to
VECTOR) and raises `TypeError` instead of producing the wrapped text
(sixth conjunct). -/
theorem c4_collapse_retyping_and_projection :
    (∀ e : AstExpression,
      exprTypeFlag e =
        if (rawExprType e).type != AstTypeKind.number &&
            isSingleMember (rawExprType e) then
          (⟨AstTypeKind.number, []⟩, true)
        else (rawExprType e, false)) ∧
    rawExprType
        (.collectionVec (.cons (.symbolNode ⟨"3", ⟨.number, []⟩, .normal⟩) .nil)) =
      ⟨AstTypeKind.vector, [.int 1, .int 1]⟩ ∧
    exprTypeFlag
        (.collectionVec (.cons (.symbolNode ⟨"3", ⟨.number, []⟩, .normal⟩) .nil)) =
      (⟨AstTypeKind.number, []⟩, true) ∧
    exprTypeFlag
        (.collectionMat (.cons (.cons (.symbolNode ⟨"3", ⟨.number, []⟩, .normal⟩)
          .nil) .nil)) =
      (⟨AstTypeKind.number, []⟩, true) ∧
    toSympyStr
        (.collectionMat (.cons (.cons (.symbolNode ⟨"3", ⟨.number, []⟩, .normal⟩)
          .nil) .nil)) =
      .ok "(Matrix([[3]]))[0,0]" ∧
    toSympyStr
        (.collectionVec (.cons (.symbolNode ⟨"3", ⟨.number, []⟩, .normal⟩) .nil)) =
      .error "TypeError: iteration over non-sequence AstExpression" ∧
    exprTypeFlag
        (.collectionVec (.cons (.symbolNode ⟨"a", ⟨.number, []⟩, .normal⟩)
          (.cons (.symbolNode ⟨"b", ⟨.number, []⟩, .normal⟩) .nil))) =
      (⟨AstTypeKind.vector, [.int 2, .int 1]⟩, false) ∧
    toSympyStr
        (.collectionVec (.cons (.symbolNode ⟨"a", ⟨.number, []⟩, .normal⟩)
          (.cons (.symbolNode ⟨"b", ⟨.number, []⟩, .normal⟩) .nil))) =
      .ok "Matrix([a,b])" := by
  refine ⟨?_, rfl, rfl, rfl, ?_, ?_, rfl, ?_⟩
  · intro e
    cases e <;> rfl
  · simp +decide [toSympyStr, toSympyCore, toSympyStrList, toSympyRowStrs]
  · simp +decide [toSympyStr, toSympyCore, toSympyStrList, toSympyRowStrs]
  · simp +decide [toSympyStr, toSympyCore, toSympyStrList, toSympyRowStrs]

/-! ### Parser semantic actions (parsing/expryacc.py) -/

/-- The Python exception raised by an environment lookup failure: a
`KeyError` carrying only the missing key.  (The parser defines no
NameResolutionError class; `p_atom` and `p_vector_index` index the
module-level `environment` dict directly and never consult the token's
source line.) -/
inductive PyErr where
  | keyError (key : String)
deriving DecidableEq

/-- The module-level `environment` dict (name → type), embedded as an
association list where an assignment prepends its binding, so lookup
takes the first match (Python dict assignment overwrites). -/
def envLookup (env : List (String × AstExprType)) (name : String) :
    Option AstExprType :=
  (env.find? (fun p => p.1 == name)).map (fun p => p.2)

/-- A token as it reaches `p_atom`: the lexer has already converted a
DOUBLE to a float (embedded by its `str(...)` form) and an INTEGER to an
int, while an ID stays a `str`. -/
inductive AtomToken where
  | id (s : String)
  | double (printed : String)
  | integer (n : Int)
deriving DecidableEq

/-- `p_atom`: the default type is NUMBER; for an identifier (a `str`)
the type is `environment[p[1]]` — a plain dict lookup whose failure is a
`KeyError` on the identifier.  The result is a SYMBOL expression over
`AstSymbol(str(p[1]), symbol_type)` with the default NORMAL flag. -/
def pAtom (env : List (String × AstExprType)) (tok : AtomToken) :
    Except PyErr AstExpression :=
  match tok with
  | .id s =>
    match envLookup env s with
    | none => .error (.keyError s)
    | some t => .ok (.symbolNode ⟨s, t, .normal⟩)
  | .double printed => .ok (.symbolNode ⟨printed, ⟨.number, []⟩, .normal⟩)
  | .integer n => .ok (.symbolNode ⟨toString n, ⟨.number, []⟩, .normal⟩)

/-- The `ID [ expr ]` form of `p_vector_index`: the indexed source is
`AstSymbol(p[1], environment[p[1]])` (again a bare dict lookup), and the
result is an INDEXING node `(source, index, 0)`. -/
def pVectorIndexId (env : List (String × AstExprType)) (name : String)
    (indexExpr : AstExpression) : Except PyErr AstExpression :=
  match envLookup env name with
  | none => .error (.keyError name)
  | some t =>
    .ok (.indexing (.symbolNode ⟨name, t, .normal⟩) indexExpr
      (.symbolNode ⟨"0", ⟨.number, []⟩, .normal⟩))

/-- C5 counterexample: with only `x` declared, the atom `z` (and the
indexed reference `z[...]`) fails with a bare `KeyError "z"` — a dict
lookup failure carrying only the identifier.  No NameResolutionError
exists in the code, and neither semantic action receives or records the
source line, so the error cannot carry one. -/
theorem c5_counterexample :
    pAtom [("x", ⟨.number, []⟩)] (.id "z") = .error (.keyError "z") ∧
    pVectorIndexId [("x", ⟨.number, []⟩)] "z"
        (.symbolNode ⟨"0", ⟨.number, []⟩, .normal⟩) =
      .error (.keyError "z") :=
  ⟨rfl, rfl⟩

/-- C5 (amended): a reference to an identifier missing from the
environment makes `p_atom` / `p_vector_index` raise a `KeyError`
carrying the offending identifier (and nothing else — in particular no
source line); the uncaught exception aborts the parse. -/
theorem c5_undeclared_identifier_keyerror
    (env : List (String × AstExprType)) (s : String)
    (hmiss : envLookup env s = none) :
    pAtom env (.id s) = .error (.keyError s) ∧
    ∀ indexExpr, pVectorIndexId env s indexExpr = .error (.keyError s) := by
  constructor
  · simp [pAtom, hmiss]
  · intro indexExpr
    simp [pVectorIndexId, hmiss]

/-- Witness for `c5_undeclared_identifier_keyerror` at a concrete
environment and identifier. -/
theorem c5_undeclared_identifier_keyerror_witness :
    pAtom [("x", (⟨.number, []⟩ : AstExprType))] (.id "z") =
      .error (.keyError "z") ∧
    ∀ indexExpr,
      pVectorIndexId [("x", (⟨.number, []⟩ : AstExprType))] "z" indexExpr =
        .error (.keyError "z") :=
  c5_undeclared_identifier_keyerror [("x", ⟨.number, []⟩)] "z" rfl

/-! ### Lexer error rule (parsing/exprlex.py) -/

/-- The lexer state visible to `t_error`: the input data, the current
position (`lexpos`), and the line counter (`lineno`). -/
structure LexState where
  lexdata : List Char
  lexpos : Nat
  lineno : Nat
deriving DecidableEq

/-- `t_error`: print `"Illegal character '%s'" % t.value[0]` (where
`t.value` is the remaining input `lexdata[lexpos:]`) and `skip(1)`,
i.e. advance `lexpos` by one and return control to the lexer loop. -/
def tError (t : LexState) : String × LexState :=
  ("Illegal character \x27" ++
      String.mk [(t.lexdata.drop t.lexpos).headD ' '] ++ "\x27",
    { t with lexpos := t.lexpos + 1 })

/-- C8 counterexample: two lexer states at the same offending character
`$` but with different line numbers (3 vs 99) and different source
positions (0 vs 2) produce the SAME diagnostic, so the diagnostic
cannot include the line number or the source position; it is exactly
`Illegal character '$'`. -/
theorem c8_counterexample :
    (tError ⟨['$'], 0, 3⟩).1 = (tError ⟨['a','b','$'], 2, 99⟩).1 ∧
    (tError ⟨['$'], 0, 3⟩).1 = "Illegal character \x27$\x27" := by
  constructor <;> rfl

/-- C8 (amended): on an unrecognized character the lexer reports a
diagnostic containing only the offending character (no line number, no
position), then skips exactly that one character (the position advances
by 1, input and line counter unchanged) and returns to the lexing loop —
the error is recoverable, not fatal. -/
theorem c8_lexer_error_skip_and_continue (t : LexState) :
    (tError t).1 =
      "Illegal character \x27" ++
        String.mk [(t.lexdata.drop t.lexpos).headD ' '] ++ "\x27" ∧
    (tError t).2.lexpos = t.lexpos + 1 ∧
    (tError t).2.lexdata = t.lexdata ∧
    (tError t).2.lineno = t.lineno :=
  ⟨rfl, rfl, rfl, rfl⟩

/-! ### Sympification loop (parsing/exprparser.py) -/

/-- The expression loop of `parse_expr_specification` (lines 75-86):
for each named AST expression in declaration order, project it to sympy
text (`toStr`, the node's `to_sympy_str`), sympify it against the
current locals (`sympifyF`, the external `sympy.sympify`), simplify
(`simplifyF`, the external `sympy.simplify` with its try/except
fallback), bind the result under the expression's name (a dict
assignment, embedded as a shadowing prepend), and stop right after the
expression named "main". -/
def processExprsUntilMain {α σ : Type} (toStr : α → String)
    (sympifyF : String → List (String × σ) → σ) (simplifyF : σ → σ) :
    List (String × σ) → List (String × α) → List (String × σ)
  | locals, [] => locals
  | locals, (exprName, astExpr) :: rest =>
    let sympyExpr := simplifyF (sympifyF (toStr astExpr) locals)
    let locals1 := (exprName, sympyExpr) :: locals
    if exprName == "main" then locals1
    else processExprsUntilMain toStr sympifyF simplifyF locals1 rest

/-- C9: the sympification pass processes named expressions in
declaration order and stops at the first expression named "main":
whatever follows "main" is never projected, sympified or bound (the
resulting locals are literally those of the prefix plus the "main"
binding, for EVERY suffix), and the binding looked up under "main" — the
pipeline's result — is the simplified sympification of the "main"
expression against the locals accumulated from the prefix. -/
theorem c9_stop_at_main {α σ : Type} (toStr : α → String)
    (sympifyF : String → List (String × σ) → σ) (simplifyF : σ → σ)
    (locals : List (String × σ)) (pre : List (String × α)) (e : α)
    (post : List (String × α)) (hpre : "main" ∉ pre.map Prod.fst) :
    processExprsUntilMain toStr sympifyF simplifyF locals
        (pre ++ ("main", e) :: post) =
      ("main", simplifyF (sympifyF (toStr e)
          (processExprsUntilMain toStr sympifyF simplifyF locals pre))) ::
        processExprsUntilMain toStr sympifyF simplifyF locals pre ∧
    List.lookup "main"
        (processExprsUntilMain toStr sympifyF simplifyF locals
          (pre ++ ("main", e) :: post)) =
      some (simplifyF (sympifyF (toStr e)
        (processExprsUntilMain toStr sympifyF simplifyF locals pre))) := by
  have hmain : ∀ locals0,
      processExprsUntilMain toStr sympifyF simplifyF locals0
          (pre ++ ("main", e) :: post) =
        ("main", simplifyF (sympifyF (toStr e)
            (processExprsUntilMain toStr sympifyF simplifyF locals0 pre))) ::
          processExprsUntilMain toStr sympifyF simplifyF locals0 pre := by
    clear locals
    induction pre with
    | nil =>
      intro locals0
      simp [processExprsUntilMain]
    | cons hd tl ih =>
      intro locals0
      have hne : hd.1 ≠ "main" := by
        intro hcontra
        exact hpre (by simp [hcontra])
      have htl : "main" ∉ tl.map Prod.fst := by
        intro hcontra
        exact hpre (by simp [hcontra])
      have ih2 := ih htl
      obtain ⟨n, a⟩ := hd
      simp only [List.cons_append, processExprsUntilMain]
      rw [if_neg (by simpa using hne), if_neg (by simpa using hne)]
      exact ih2 _
  refine ⟨hmain locals, ?_⟩
  rw [hmain locals]
  simp [List.lookup]

/-- Witness for `c9_stop_at_main` with a concrete prefix, main
expression and non-empty suffix. -/
theorem c9_stop_at_main_witness :
    processExprsUntilMain (fun s : String => s)
        (fun s (l : List (String × Nat)) => s.length + l.length) (fun n => n + 1)
        [] ([("f", "aa")] ++ ("main", "xyz") :: [("g", "zzzz")]) =
      ("main", ((fun s (l : List (String × Nat)) => s.length + l.length) "xyz"
          (processExprsUntilMain (fun s : String => s)
            (fun s (l : List (String × Nat)) => s.length + l.length)
            (fun n => n + 1) [] [("f", "aa")])) + 1) ::
        processExprsUntilMain (fun s : String => s)
          (fun s (l : List (String × Nat)) => s.length + l.length)
          (fun n => n + 1) [] [("f", "aa")] ∧
    List.lookup "main"
        (processExprsUntilMain (fun s : String => s)
          (fun s (l : List (String × Nat)) => s.length + l.length)
          (fun n => n + 1) [] ([("f", "aa")] ++ ("main", "xyz") :: [("g", "zzzz")])) =
      some (((fun s (l : List (String × Nat)) => s.length + l.length) "xyz"
          (processExprsUntilMain (fun s : String => s)
            (fun s (l : List (String × Nat)) => s.length + l.length)
            (fun n => n + 1) [] [("f", "aa")])) + 1) :=
  c9_stop_at_main (fun s : String => s)
    (fun s (l : List (String × Nat)) => s.length + l.length) (fun n => n + 1)
    [] [("f", "aa")] "xyz" [("g", "zzzz")] (by simp)

/-! ### Dummy-variable renaming (common/sympyutils.py) -/

/-- A sympy atom as inspected by `distinguish_dummy_vars`: its name and
its `is_Dummy` flag. -/
structure SympyAtom where
  name : String
  isDummy : Bool
deriving DecidableEq

/-- The renaming loop of `distinguish_dummy_vars`: iterate over the
atoms of the expression IN THE ITERATION ORDER OF THE `atoms()` SET
(made explicit here as the input list order) and append the running
suffix to each dummy's name, incrementing the suffix per dummy. -/
def distinguishDummyVarsFold (suffix : Nat) :
    List SympyAtom → List SympyAtom
  | [] => []
  | atom :: rest =>
    if atom.isDummy then
      { atom with name := atom.name ++ toString suffix } ::
        distinguishDummyVarsFold (suffix + 1) rest
    else atom :: distinguishDummyVarsFold suffix rest

/-- `distinguish_dummy_vars`, starting from suffix 0. -/
def distinguishDummyVars (atomsInSetOrder : List SympyAtom) :
    List SympyAtom :=
  distinguishDummyVarsFold 0 atomsInSetOrder

/-- C6 counterexample: the same two-dummy atom SET visited in the two
possible set-iteration orders is renamed to two genuinely different atom
sets (not even permutations of each other), so the dummy-variable
renaming — and hence the pipeline output — is NOT independent of set
iteration order. -/
theorem c6_counterexample :
    ([⟨"_d1", true⟩, ⟨"_d2", true⟩] : List SympyAtom).Perm
      [⟨"_d2", true⟩, ⟨"_d1", true⟩] ∧
    ¬ (distinguishDummyVars [⟨"_d1", true⟩, ⟨"_d2", true⟩]).Perm
        (distinguishDummyVars [⟨"_d2", true⟩, ⟨"_d1", true⟩]) := by
  constructor
  · decide
  · decide

theorem distinguishDummyVarsFold_no_dummy :
    ∀ (l : List SympyAtom) (k : Nat),
      l.countP (fun a => a.isDummy) = 0 → distinguishDummyVarsFold k l = l := by
  intro l
  induction l with
  | nil => intro k _; rfl
  | cons a rest ih =>
    intro k hc
    rw [List.countP_cons] at hc
    have ha : a.isDummy = false := by
      cases h : a.isDummy
      · rfl
      · simp [h] at hc
    simp only [ha] at hc
    simp only [distinguishDummyVarsFold, ha, Bool.false_eq_true, if_false]
    rw [ih k (by omega)]

theorem map_rename_no_dummy :
    ∀ l : List SympyAtom, l.countP (fun a => a.isDummy) = 0 →
      l.map (fun a =>
        if a.isDummy then { a with name := a.name ++ toString (0 : Nat) }
        else a) = l := by
  intro l
  induction l with
  | nil => intro _; rfl
  | cons b brest ih =>
    intro hc
    rw [List.countP_cons] at hc
    have hb : b.isDummy = false := by
      cases h : b.isDummy
      · rfl
      · simp [h] at hc
    simp only [hb] at hc
    rw [List.map_cons, if_neg (by simp [hb]), ih (by omega)]

theorem distinguishDummyVars_le_one_map :
    ∀ l : List SympyAtom, l.countP (fun a => a.isDummy) ≤ 1 →
      distinguishDummyVars l =
        l.map (fun a =>
          if a.isDummy then { a with name := a.name ++ toString (0 : Nat) }
          else a) := by
  intro l
  induction l with
  | nil => intro _; rfl
  | cons a rest ih =>
    intro hc
    rw [List.countP_cons] at hc
    cases ha : a.isDummy with
    | true =>
      simp only [ha, reduceIte] at hc
      have hrest : rest.countP (fun x => x.isDummy) = 0 := by omega
      have h1 : distinguishDummyVars (a :: rest) =
          { a with name := a.name ++ toString (0 : Nat) } ::
            distinguishDummyVarsFold 1 rest := by
        simp [distinguishDummyVars, distinguishDummyVarsFold, ha]
      rw [h1, distinguishDummyVarsFold_no_dummy rest 1 hrest, List.map_cons,
        if_pos (by simp [ha]), map_rename_no_dummy rest hrest]
    | false =>
      simp only [ha, Bool.false_eq_true, reduceIte] at hc
      have h1 : distinguishDummyVars (a :: rest) =
          a :: distinguishDummyVarsFold 0 rest := by
        simp [distinguishDummyVars, distinguishDummyVarsFold, ha]
      rw [h1, List.map_cons, if_neg (by simp [ha])]
      have := ih (by omega)
      rw [distinguishDummyVars] at this
      rw [this]

/-- C6 (amended): the temporary-variable numbering is the deterministic
`<stem>_0, <stem>_1, ...` counter sequence (first conjunct), but the
dummy-variable renaming is a deterministic function of the ITERATION
ORDER of the expression's atom set, not of the input alone; only when at
most one dummy variable is present is the renamed atom set independent
(up to permutation) of that order (second conjunct) — with two or more
dummies it is not (see the counterexample). -/
theorem c6_determinism_up_to_set_order :
    (∀ st : ExprGenState,
      getNxtTempVarName st =
        (st.tempVarStem ++ "_" ++ toString st.numTempVarUsed,
          ⟨st.tempVarStem, st.numTempVarUsed + 1⟩)) ∧
    (∀ l1 l2 : List SympyAtom, l1.Perm l2 →
      l1.countP (fun a => a.isDummy) ≤ 1 →
      (distinguishDummyVars l1).Perm (distinguishDummyVars l2)) := by
  constructor
  · intro st
    rfl
  · intro l1 l2 hperm hc
    rw [distinguishDummyVars_le_one_map l1 hc,
      distinguishDummyVars_le_one_map l2 (by rw [← hperm.countP_eq]; exact hc)]
    exact hperm.map _

/-- Witness for `c6_determinism_up_to_set_order` at a concrete one-dummy
atom set in its two iteration orders. -/
theorem c6_determinism_up_to_set_order_witness :
    (distinguishDummyVars [⟨"_d", true⟩, ⟨"x", false⟩]).Perm
      (distinguishDummyVars [⟨"x", false⟩, ⟨"_d", true⟩]) :=
  c6_determinism_up_to_set_order.2 [⟨"_d", true⟩, ⟨"x", false⟩]
    [⟨"x", false⟩, ⟨"_d", true⟩] (by decide) (by decide)

end DerivGen
